import Mathlib

namespace SprVerify

/-- Arena node record, embedding the node type the program manipulates: a
name, optional parent and child indices into the arena, and an optional
numeric scratch field `depth`.  The numeric payload of `depth` (an `f64` in
the source, only ever stored and copied, never computed with) is abstracted
as a type parameter `α`. -/
structure Node (α : Type) where
  name : String
  parent : Option Nat
  left_child : Option Nat
  right_child : Option Nat
  depth : Option α
deriving DecidableEq, Repr

/-- Arena of nodes plus a designated root index, embedding the flat tree
representation (`FlatTree`) used by the program. -/
structure FlatTree (α : Type) where
  nodes : List (Node α)
  root : Nat
deriving DecidableEq, Repr

variable {α : Type}

/-- Number of nodes in the arena. -/
def FlatTree.len (t : FlatTree α) : Nat := t.nodes.length

/-- Read the node at index `i`; `none` models a Rust out-of-bounds indexing
panic. -/
def getNode (t : FlatTree α) (i : Nat) : Option (Node α) := t.nodes[i]?

/-- Replace the node at index `i` by `f` of its old value; `none` models an
out-of-bounds indexing panic on the write. -/
def updNode (t : FlatTree α) (i : Nat) (f : Node α → Node α) :
    Option (FlatTree α) :=
  (getNode t i).map fun nd => { t with nodes := t.nodes.set i (f nd) }

/-- Recorded parent index of node `i`; `none` if the field is absent or `i`
is out of bounds. -/
def parentOf (t : FlatTree α) (i : Nat) : Option Nat :=
  (getNode t i).bind Node.parent

/-- Recorded left-child index of node `i`. -/
def leftOf (t : FlatTree α) (i : Nat) : Option Nat :=
  (getNode t i).bind Node.left_child

/-- Recorded right-child index of node `i`. -/
def rightOf (t : FlatTree α) (i : Nat) : Option Nat :=
  (getNode t i).bind Node.right_child

/-- Recorded depth field of node `i`. -/
def depthOf (t : FlatTree α) (i : Nat) : Option α :=
  (getNode t i).bind Node.depth

/-- Name of node `i`. -/
def nameOf (t : FlatTree α) (i : Nat) : Option String :=
  (getNode t i).map Node.name

/-- Node updater: overwrite the parent field. -/
def setPar (p : Option Nat) (nd : Node α) : Node α := { nd with parent := p }

/-- Node updater: overwrite the left-child slot. -/
def setL (c : Option Nat) (nd : Node α) : Node α := { nd with left_child := c }

/-- Node updater: overwrite the right-child slot. -/
def setR (c : Option Nat) (nd : Node α) : Node α := { nd with right_child := c }

/-- Node updater: overwrite the depth field. -/
def setD (a : Option α) (nd : Node α) : Node α := { nd with depth := a }

/-- Root-case branch of `spr` (source lines 41-71): the recipient's parent is
the current root.  The recipient's sibling is promoted to the root, the
recipient's parent is re-attached under the donor's parent, the child slot of
the recipient's parent holding the sibling is overwritten with the donor, the
depth field is stamped with `time`, the donor's parent's slot holding the
donor is overwritten with the recipient's parent, and finally the donor's
parent pointer is set.  Every arena read happens on the current intermediate
tree, exactly as the source's sequence of statements does. -/
def sprRoot (t0 : FlatTree α) (donor dp recipient rp sib : Nat) (time : α) :
    Option (FlatTree α) :=
  (updNode t0 sib (setPar none)).bind fun t1a =>
  let t1 : FlatTree α := { t1a with root := sib }
  (updNode t1 rp (setPar (some dp))).bind fun t2 =>
  (getNode t2 rp).bind fun rpn2 =>
  rpn2.left_child.bind fun rl2 =>
  (if rl2 = recipient
    then updNode t2 rp (setR (some donor))
    else updNode t2 rp (setL (some donor))).bind
      fun t3 =>
  (updNode t3 rp (setD (some time))).bind fun t4 =>
  (getNode t4 dp).bind fun dpn =>
  dpn.left_child.bind fun dl =>
  (if dl = donor
    then updNode t4 dp (setL (some rp))
    else updNode t4 dp (setR (some rp))).bind
      fun t5 =>
  updNode t5 donor (setPar (some rp))

/-- Non-root branch of `spr` (source lines 72-106): the recipient's parent
has a parent.  The grandparent option `rgp` is the value read before any
mutation (source line 74).  The recipient's parent is re-attached under the
donor's parent, the child slot of the recipient's parent holding the
recipient is overwritten with the donor (note: the recipient's slot, not the
sibling's, mirroring the source), the depth field is stamped, the
grandparent's slot holding the recipient's parent is overwritten with the
sibling and the sibling re-parented, the donor's parent's slot holding the
donor is overwritten with the recipient's parent, and the donor re-parented. -/
def sprNonRoot (t0 : FlatTree α) (donor dp recipient rp sib : Nat)
    (rgp : Option Nat) (time : α) : Option (FlatTree α) :=
  (updNode t0 rp (setPar (some dp))).bind fun t1 =>
  (getNode t1 rp).bind fun rpn1 =>
  rpn1.left_child.bind fun rl1 =>
  (if rl1 = recipient
    then updNode t1 rp (setL (some donor))
    else updNode t1 rp (setR (some donor))).bind
      fun t2 =>
  (updNode t2 rp (setD (some time))).bind fun t3 =>
  (match rgp with
    | some gp =>
      (getNode t3 gp).bind fun gpn =>
      gpn.left_child.bind fun gl =>
      (if gl = rp
        then updNode t3 gp (setL (some sib))
        else updNode t3 gp (setR (some sib))).bind
          fun t4a =>
      updNode t4a sib (setPar (some gp))
    | none => some t3).bind fun t4 =>
  (getNode t4 dp).bind fun dpn =>
  dpn.left_child.bind fun dl =>
  (if dl = donor
    then updNode t4 dp (setL (some rp))
    else updNode t4 dp (setR (some rp))).bind
      fun t5 =>
  updNode t5 donor (setPar (some rp))

/-- Shallow embedding of the `spr` function (source lines 8-110).  A `none`
result models a process abort: a failed `expect` on a missing parent, a
failed `unwrap` on a missing child slot, or an out-of-bounds index.  The
prelude reads the donor's and recipient's parents (panicking if absent),
computes the recipient's sibling from the recipient's parent's child slots,
and dispatches on whether the recipient's parent is the current root. -/
def spr (t0 : FlatTree α) (donor recipient : Nat) (time : α) :
    Option (FlatTree α) :=
  (getNode t0 donor).bind fun dn =>
  dn.parent.bind fun donor_parent =>
  (getNode t0 recipient).bind fun rn =>
  rn.parent.bind fun recipient_parent =>
  (getNode t0 recipient_parent).bind fun rpn =>
  rpn.left_child.bind fun rl =>
  (if rl = recipient then rpn.right_child else some rl).bind
    fun recipient_sibling =>
  if rpn.parent = none then
    sprRoot t0 donor donor_parent recipient recipient_parent
      recipient_sibling time
  else
    sprNonRoot t0 donor donor_parent recipient recipient_parent
      recipient_sibling rpn.parent time

/-- Index reached from `i` after `k` upward steps along recorded parent
links; `none` once a parentless node's parent would be taken (or on an
out-of-bounds index). -/
def iterParent (t : FlatTree α) : Nat → Nat → Option Nat
  | 0, i => some i
  | k + 1, i => (parentOf t i).bind fun p => iterParent t k p

/-- `a` is a proper ancestor of `i`: some positive number of parent steps
from `i` lands on `a`. -/
def properAncestor (t : FlatTree α) (a i : Nat) : Prop :=
  ∃ k, 1 ≤ k ∧ iterParent t k i = some a

/-- The validation loop of `main` (source lines 168-178): starting from the
donor's recorded parent, walk parent links upward and report whether the
index `target` is hit.  The source loop is unbounded; it is embedded with
explicit fuel, which the caller sets to the arena size — enough for any
arena whose parent chains reach the root, per the §3 invariants. -/
def hitsAncestor (t : FlatTree α) (target : Nat) : Nat → Option Nat → Bool
  | 0, _ => false
  | _, none => false
  | fuel + 1, some p =>
    if p = target then true
    else hitsAncestor t target fuel (parentOf t p)

/-- `Iterator::position`: index of the first element satisfying `p`
(source lines 158-165 and 214-217 use this shape). -/
def position (p : β → Bool) : List β → Option Nat
  | [] => none
  | x :: xs => if p x then some 0 else (position p xs).map (· + 1)

/-- Modelled from the spec: the external crate's pre-order iterator over the
arena (§4.2 — visit a node, then the left subtree, then the right subtree,
starting at the root).  The recursion is fuelled by the arena size, which
bounds the tree height for arenas satisfying the §3 invariants. -/
def preorderAux (t : FlatTree α) : Nat → Nat → List (Node α)
  | 0, _ => []
  | fuel + 1, i =>
    match getNode t i with
    | none => []
    | some nd =>
      nd ::
        ((match nd.left_child with
          | some l => preorderAux t fuel l
          | none => []) ++
         (match nd.right_child with
          | some r => preorderAux t fuel r
          | none => []))

/-- Modelled from the spec: the sequence of nodes yielded by the external
pre-order iterator (§4.2). -/
def preorderNodes (t : FlatTree α) : List (Node α) :=
  preorderAux t t.len t.root

/-- Name lookup as performed by `main` (source lines 158-165): the position
of the first pre-order node whose name equals `name`. -/
def lookupName (t : FlatTree α) (name : String) : Option Nat :=
  position (fun nd => nd.name == name) (preorderNodes t)

/-- Name lookup with the fatal-panic message of the source
(`panic!("Donor '{}' not found in tree", donor_name)` and the analogous
recipient message): an `Except.error` carries the abort diagnostic. -/
def locate (t : FlatTree α) (role : String) (name : String) :
    Except String Nat :=
  match lookupName t name with
  | some k => Except.ok k
  | none => Except.error (role ++ " '" ++ name ++ "' not found in tree")

instance instDecEqExcept {ε σ : Type} [DecidableEq ε] [DecidableEq σ] :
    DecidableEq (Except ε σ) := fun x y =>
  match x, y with
  | Except.error a, Except.error b =>
    if h : a = b then Decidable.isTrue (by rw [h])
    else Decidable.isFalse (by intro hc; cases hc; exact h rfl)
  | Except.error _, Except.ok _ => Decidable.isFalse (by intro hc; cases hc)
  | Except.ok _, Except.error _ => Decidable.isFalse (by intro hc; cases hc)
  | Except.ok a, Except.ok b =>
    if h : a = b then Decidable.isTrue (by rw [h])
    else Decidable.isFalse (by intro hc; cases hc; exact h rfl)

/-- Outcome of the post-parse part of `main`.  `panic` models a process
abort (failed lookup, a panic inside `spr`, or no parentless node found);
`invalidMove` models the `eprintln` + `exit(1)` path, on which `spr` is
never invoked, the arena is left untouched and no output file is written;
`ok t` models normal termination after which `t` is serialized to the
output file. -/
inductive RunResult (α : Type) where
  | panic (msg : String)
  | invalidMove
  | ok (t : FlatTree α)
deriving DecidableEq, Repr

/-- The post-parse workflow of `main` (source lines 157-254): locate donor
and recipient by name, walk parent links up from the donor looking for the
recipient (rejecting the move with exit code 1 on a hit), apply `spr`, then
re-scan the arena for the parentless node and update the root.  `main`
passes the constant `0.5` as `time`; since the value is only stored, it is
taken here as the parameter `time`. -/
def runMain (t : FlatTree α) (donorName recipientName : String) (time : α) :
    RunResult α :=
  match locate t "Donor" donorName with
  | Except.error m => RunResult.panic m
  | Except.ok donorIdx =>
    match locate t "Recipient" recipientName with
    | Except.error m => RunResult.panic m
    | Except.ok recipientIdx =>
      if hitsAncestor t recipientIdx t.len (parentOf t donorIdx) then
        RunResult.invalidMove
      else
        match spr t donorIdx recipientIdx time with
        | none => RunResult.panic "spr aborted"
        | some t' =>
          match position (fun nd => nd.parent.isNone) t'.nodes with
          | none => RunResult.panic "No root found in the tree"
          | some rootIdx => RunResult.ok { t' with root := rootIdx }

/-- Pointwise predicate on an optional index: trivially true when absent. -/
def OptAll (P : Nat → Prop) : Option Nat → Prop
  | none => True
  | some k => P k

instance instDecOptAll (P : Nat → Prop) [DecidablePred P] :
    (o : Option Nat) → Decidable (OptAll P o)
  | none => Decidable.isTrue trivial
  | some k => inferInstanceAs (Decidable (P k))

/-- Node `i`'s parent chain reaches the designated root in fewer than
`t.len` steps. -/
def ReachesRoot (t : FlatTree α) (i : Nat) : Prop :=
  ∃ k, k < t.len ∧ iterParent t k i = some t.root

instance instDecReachesRoot (t : FlatTree α) (i : Nat) :
    Decidable (ReachesRoot t i) :=
  decidable_of_iff (∃ k ∈ List.range t.len, iterParent t k i = some t.root)
    (by simp [ReachesRoot, List.mem_range])

/-- Node `i` occupies exactly one of the two child slots of node `p`. -/
def ExactlyOneSlot (t : FlatTree α) (i p : Nat) : Prop :=
  (leftOf t p = some i ∧ ¬rightOf t p = some i) ∨
    (rightOf t p = some i ∧ ¬leftOf t p = some i)

instance instDecExactlyOneSlot (t : FlatTree α) (i p : Nat) :
    Decidable (ExactlyOneSlot t i p) :=
  inferInstanceAs (Decidable
    ((leftOf t p = some i ∧ ¬rightOf t p = some i) ∨
      (rightOf t p = some i ∧ ¬leftOf t p = some i)))

/-- The §3 arena invariants (together with the §4.1 construction guarantees
they restate): the root index is in bounds and is the unique parentless
node; all recorded indices are in bounds; internal nodes have both children
(strict binary); every non-root node occupies exactly one child slot of its
recorded parent, and every child slot points to a node whose recorded
parent points back (back-reference consistency); every parent chain reaches
the root in finitely many steps; and a childless node carries a non-empty
name. -/
def Inv (t : FlatTree α) : Prop :=
  t.root < t.len ∧
  parentOf t t.root = none ∧
  (∀ i < t.len, parentOf t i = none → i = t.root) ∧
  (∀ i < t.len, OptAll (· < t.len) (parentOf t i)) ∧
  (∀ i < t.len, OptAll (· < t.len) (leftOf t i)) ∧
  (∀ i < t.len, OptAll (· < t.len) (rightOf t i)) ∧
  (∀ i < t.len, ((leftOf t i).isSome ↔ (rightOf t i).isSome)) ∧
  (∀ i < t.len, OptAll (fun p => ExactlyOneSlot t i p) (parentOf t i)) ∧
  (∀ i < t.len, OptAll (fun c => parentOf t c = some i) (leftOf t i) ∧
    OptAll (fun c => parentOf t c = some i) (rightOf t i)) ∧
  (∀ i < t.len, ReachesRoot t i) ∧
  (∀ i < t.len, leftOf t i = none → rightOf t i = none →
    ¬nameOf t i = some "")

instance instDecInv (t : FlatTree α) : Decidable (Inv t) := by
  unfold Inv
  infer_instance

/-- Arena for the newick tree `((A,B),(C,D));` laid out in pre-order, as the
§4.1/§4.3 lowering produces it: node 1 is the internal node over `A`,`B`,
node 4 the internal node over `C`,`D`. -/
def ex1 : FlatTree Int :=
  { nodes :=
      [ { name := "", parent := none, left_child := some 1,
          right_child := some 4, depth := none },
        { name := "", parent := some 0, left_child := some 2,
          right_child := some 3, depth := none },
        { name := "A", parent := some 1, left_child := none,
          right_child := none, depth := none },
        { name := "B", parent := some 1, left_child := none,
          right_child := none, depth := none },
        { name := "", parent := some 0, left_child := some 5,
          right_child := some 6, depth := none },
        { name := "C", parent := some 4, left_child := none,
          right_child := none, depth := none },
        { name := "D", parent := some 4, left_child := none,
          right_child := none, depth := none } ],
    root := 0 }

/-- Arena for the newick tree `((A,B),C);` laid out in pre-order. -/
def exA : FlatTree Int :=
  { nodes :=
      [ { name := "", parent := none, left_child := some 1,
          right_child := some 4, depth := none },
        { name := "", parent := some 0, left_child := some 2,
          right_child := some 3, depth := none },
        { name := "A", parent := some 1, left_child := none,
          right_child := none, depth := none },
        { name := "B", parent := some 1, left_child := none,
          right_child := none, depth := none },
        { name := "C", parent := some 0, left_child := none,
          right_child := none, depth := none } ],
    root := 0 }

/-- Arena for the newick tree `((A,B)X,C);` laid out in pre-order: as `exA`
but with the internal node over `A`,`B` carrying the name `X`, so that it
can be addressed from the command line. -/
def exC2 : FlatTree Int :=
  { nodes :=
      [ { name := "", parent := none, left_child := some 1,
          right_child := some 4, depth := none },
        { name := "X", parent := some 0, left_child := some 2,
          right_child := some 3, depth := none },
        { name := "A", parent := some 1, left_child := none,
          right_child := none, depth := none },
        { name := "B", parent := some 1, left_child := none,
          right_child := none, depth := none },
        { name := "C", parent := some 0, left_child := none,
          right_child := none, depth := none } ],
    root := 0 }



/-- Arena produced by `spr ex1 2 5 9` (donor `A`, recipient `C`), i.e. the
program's own output on the spec's Example 1, transcribed for evaluation
theorems: node 5 (`C`) still records parent 4 but occupies no child slot,
and node 6 (`D`) occupies child slots of both node 0 and node 4. -/
def ex1spr : FlatTree Int :=
  { nodes :=
      [ { name := "", parent := none, left_child := some 1,
          right_child := some 6, depth := none },
        { name := "", parent := some 0, left_child := some 4,
          right_child := some 3, depth := none },
        { name := "A", parent := some 4, left_child := none,
          right_child := none, depth := none },
        { name := "B", parent := some 1, left_child := none,
          right_child := none, depth := none },
        { name := "", parent := some 1, left_child := some 2,
          right_child := some 6, depth := some 9 },
        { name := "C", parent := some 4, left_child := none,
          right_child := none, depth := none },
        { name := "D", parent := some 0, left_child := none,
          right_child := none, depth := none } ],
    root := 0 }

/-- Arena produced by `spr exA 2 4 9` (donor `A`, recipient `C`; the
recipient's parent is the root, so the root case runs). -/
def exA24 : FlatTree Int :=
  { nodes :=
      [ { name := "", parent := some 1, left_child := some 2,
          right_child := some 4, depth := some 9 },
        { name := "", parent := none, left_child := some 0,
          right_child := some 3, depth := none },
        { name := "A", parent := some 0, left_child := none,
          right_child := none, depth := none },
        { name := "B", parent := some 1, left_child := none,
          right_child := none, depth := none },
        { name := "C", parent := some 0, left_child := none,
          right_child := none, depth := none } ],
    root := 1 }

/-- Arena produced by `spr exA 1 4 9` (donor = the internal node over
`A`,`B`, which is the recipient's sibling; the recipient's parent is the
root).  The operator sets `root := 1` but then re-parents node 1 under
node 0. -/
def exA14 : FlatTree Int :=
  { nodes :=
      [ { name := "", parent := some 0, left_child := some 0,
          right_child := some 4, depth := some 9 },
        { name := "", parent := some 0, left_child := some 2,
          right_child := some 3, depth := none },
        { name := "A", parent := some 1, left_child := none,
          right_child := none, depth := none },
        { name := "B", parent := some 1, left_child := none,
          right_child := none, depth := none },
        { name := "C", parent := some 0, left_child := none,
          right_child := none, depth := none } ],
    root := 1 }

/-- Arena carried by the `ok` outcome of `runMain exC2 "X" "A" 9`: the run
in which the donor `X` is a proper ancestor of the recipient `A` and is
nonetheless not rejected. -/
def exC2run : FlatTree Int :=
  { nodes :=
      [ { name := "", parent := none, left_child := some 3,
          right_child := some 1, depth := none },
        { name := "X", parent := some 1, left_child := some 1,
          right_child := some 3, depth := some 9 },
        { name := "A", parent := some 1, left_child := none,
          right_child := none, depth := none },
        { name := "B", parent := some 0, left_child := none,
          right_child := none, depth := none },
        { name := "C", parent := some 0, left_child := none,
          right_child := none, depth := none } ],
    root := 0 }

theorem getNode_eq_some_of_lt {t : FlatTree α} {i : Nat} (h : i < t.len) :
    ∃ nd, getNode t i = some nd := by
  rcases hg : getNode t i with _ | nd
  · rw [getNode, List.getElem?_eq_none_iff] at hg
    exact absurd hg (by simp only [FlatTree.len] at h; omega)
  · exact ⟨nd, rfl⟩

theorem getNode_lt {t : FlatTree α} {i : Nat} {nd : Node α}
    (h : getNode t i = some nd) : i < t.len := by
  by_cases hi : i < t.len
  · exact hi
  · rw [getNode, List.getElem?_eq_none (by simp only [FlatTree.len] at hi; omega)] at h
    cases h

theorem updNode_eq_some {t : FlatTree α} {j : Nat} {f : Node α → Node α}
    {nd : Node α} (h : getNode t j = some nd) :
    updNode t j f = some { t with nodes := t.nodes.set j (f nd) } := by
  simp [updNode, h]

theorem updNode_exists {t : FlatTree α} {j : Nat} (f : Node α → Node α)
    (h : j < t.len) : ∃ t', updNode t j f = some t' := by
  obtain ⟨nd, hnd⟩ := getNode_eq_some_of_lt h
  exact ⟨_, updNode_eq_some hnd⟩

theorem updNode_destruct {t t' : FlatTree α} {j : Nat} {f : Node α → Node α}
    (h : updNode t j f = some t') :
    ∃ nd, getNode t j = some nd ∧
      t' = { t with nodes := t.nodes.set j (f nd) } := by
  rcases Option.map_eq_some'.mp h with ⟨nd, hnd, ht'⟩
  exact ⟨nd, hnd, ht'.symm⟩

theorem updNode_len {t t' : FlatTree α} {j : Nat} {f : Node α → Node α}
    (h : updNode t j f = some t') : t'.len = t.len := by
  obtain ⟨nd, _, ht'⟩ := updNode_destruct h
  simp [ht', FlatTree.len]

theorem updNode_root {t t' : FlatTree α} {j : Nat} {f : Node α → Node α}
    (h : updNode t j f = some t') : t'.root = t.root := by
  obtain ⟨nd, _, ht'⟩ := updNode_destruct h
  simp [ht']

theorem getNode_updNode_ne {t t' : FlatTree α} {j : Nat} {f : Node α → Node α}
    (h : updNode t j f = some t') {i : Nat} (hij : i ≠ j) :
    getNode t' i = getNode t i := by
  obtain ⟨nd, _, ht'⟩ := updNode_destruct h
  simp [ht', getNode, List.getElem?_set_ne (Ne.symm hij)]

theorem getNode_updNode_self {t t' : FlatTree α} {j : Nat}
    {f : Node α → Node α} (h : updNode t j f = some t') :
    ∃ nd, getNode t j = some nd ∧ getNode t' j = some (f nd) := by
  obtain ⟨nd, hnd, ht'⟩ := updNode_destruct h
  refine ⟨nd, hnd, ?_⟩
  have hj : j < t.nodes.length := by
    have := getNode_lt hnd
    simpa [FlatTree.len] using this
  simp [ht', getNode, List.getElem?_set_self hj]

theorem parentOf_keep {t t' : FlatTree α} {j : Nat} {f : Node α → Node α}
    (h : updNode t j f = some t') (hf : ∀ nd, (f nd).parent = nd.parent)
    (i : Nat) : parentOf t' i = parentOf t i := by
  by_cases hij : i = j
  · subst hij
    obtain ⟨nd, hnd, hnd'⟩ := getNode_updNode_self h
    simp [parentOf, hnd, hnd', hf]
  · simp [parentOf, getNode_updNode_ne h hij]

theorem leftOf_keep {t t' : FlatTree α} {j : Nat} {f : Node α → Node α}
    (h : updNode t j f = some t')
    (hf : ∀ nd, (f nd).left_child = nd.left_child) (i : Nat) :
    leftOf t' i = leftOf t i := by
  by_cases hij : i = j
  · subst hij
    obtain ⟨nd, hnd, hnd'⟩ := getNode_updNode_self h
    simp [leftOf, hnd, hnd', hf]
  · simp [leftOf, getNode_updNode_ne h hij]

theorem rightOf_keep {t t' : FlatTree α} {j : Nat} {f : Node α → Node α}
    (h : updNode t j f = some t')
    (hf : ∀ nd, (f nd).right_child = nd.right_child) (i : Nat) :
    rightOf t' i = rightOf t i := by
  by_cases hij : i = j
  · subst hij
    obtain ⟨nd, hnd, hnd'⟩ := getNode_updNode_self h
    simp [rightOf, hnd, hnd', hf]
  · simp [rightOf, getNode_updNode_ne h hij]

theorem depthOf_keep {t t' : FlatTree α} {j : Nat} {f : Node α → Node α}
    (h : updNode t j f = some t') (hf : ∀ nd, (f nd).depth = nd.depth)
    (i : Nat) : depthOf t' i = depthOf t i := by
  by_cases hij : i = j
  · subst hij
    obtain ⟨nd, hnd, hnd'⟩ := getNode_updNode_self h
    simp [depthOf, hnd, hnd', hf]
  · simp [depthOf, getNode_updNode_ne h hij]

theorem nameOf_keep {t t' : FlatTree α} {j : Nat} {f : Node α → Node α}
    (h : updNode t j f = some t') (hf : ∀ nd, (f nd).name = nd.name)
    (i : Nat) : nameOf t' i = nameOf t i := by
  by_cases hij : i = j
  · subst hij
    obtain ⟨nd, hnd, hnd'⟩ := getNode_updNode_self h
    simp [nameOf, hnd, hnd', hf]
  · simp [nameOf, getNode_updNode_ne h hij]

theorem parentOf_setPar_self {t t' : FlatTree α} {j : Nat} {p : Option Nat}
    (h : updNode t j (setPar p) = some t') : parentOf t' j = p := by
  obtain ⟨nd, _, hnd'⟩ := getNode_updNode_self h
  simp [parentOf, hnd', setPar]

theorem parentOf_setPar_ne {t t' : FlatTree α} {j : Nat} {p : Option Nat}
    (h : updNode t j (setPar p) = some t') {i : Nat} (hij : i ≠ j) :
    parentOf t' i = parentOf t i := by
  simp [parentOf, getNode_updNode_ne h hij]

theorem leftOf_setPar {t t' : FlatTree α} {j : Nat} {p : Option Nat}
    (h : updNode t j (setPar p) = some t') (i : Nat) :
    leftOf t' i = leftOf t i :=
  leftOf_keep h (fun _ => rfl) i

theorem rightOf_setPar {t t' : FlatTree α} {j : Nat} {p : Option Nat}
    (h : updNode t j (setPar p) = some t') (i : Nat) :
    rightOf t' i = rightOf t i :=
  rightOf_keep h (fun _ => rfl) i

theorem depthOf_setPar {t t' : FlatTree α} {j : Nat} {p : Option Nat}
    (h : updNode t j (setPar p) = some t') (i : Nat) :
    depthOf t' i = depthOf t i :=
  depthOf_keep h (fun _ => rfl) i

theorem nameOf_setPar {t t' : FlatTree α} {j : Nat} {p : Option Nat}
    (h : updNode t j (setPar p) = some t') (i : Nat) :
    nameOf t' i = nameOf t i :=
  nameOf_keep h (fun _ => rfl) i

theorem leftOf_setL_self {t t' : FlatTree α} {j : Nat} {c : Option Nat}
    (h : updNode t j (setL c) = some t') : leftOf t' j = c := by
  obtain ⟨nd, _, hnd'⟩ := getNode_updNode_self h
  simp [leftOf, hnd', setL]

theorem leftOf_setL_ne {t t' : FlatTree α} {j : Nat} {c : Option Nat}
    (h : updNode t j (setL c) = some t') {i : Nat} (hij : i ≠ j) :
    leftOf t' i = leftOf t i := by
  simp [leftOf, getNode_updNode_ne h hij]

theorem parentOf_setL {t t' : FlatTree α} {j : Nat} {c : Option Nat}
    (h : updNode t j (setL c) = some t') (i : Nat) :
    parentOf t' i = parentOf t i :=
  parentOf_keep h (fun _ => rfl) i

theorem rightOf_setL {t t' : FlatTree α} {j : Nat} {c : Option Nat}
    (h : updNode t j (setL c) = some t') (i : Nat) :
    rightOf t' i = rightOf t i :=
  rightOf_keep h (fun _ => rfl) i

theorem depthOf_setL {t t' : FlatTree α} {j : Nat} {c : Option Nat}
    (h : updNode t j (setL c) = some t') (i : Nat) :
    depthOf t' i = depthOf t i :=
  depthOf_keep h (fun _ => rfl) i

theorem nameOf_setL {t t' : FlatTree α} {j : Nat} {c : Option Nat}
    (h : updNode t j (setL c) = some t') (i : Nat) :
    nameOf t' i = nameOf t i :=
  nameOf_keep h (fun _ => rfl) i

theorem rightOf_setR_self {t t' : FlatTree α} {j : Nat} {c : Option Nat}
    (h : updNode t j (setR c) = some t') : rightOf t' j = c := by
  obtain ⟨nd, _, hnd'⟩ := getNode_updNode_self h
  simp [rightOf, hnd', setR]

theorem rightOf_setR_ne {t t' : FlatTree α} {j : Nat} {c : Option Nat}
    (h : updNode t j (setR c) = some t') {i : Nat} (hij : i ≠ j) :
    rightOf t' i = rightOf t i := by
  simp [rightOf, getNode_updNode_ne h hij]

theorem parentOf_setR {t t' : FlatTree α} {j : Nat} {c : Option Nat}
    (h : updNode t j (setR c) = some t') (i : Nat) :
    parentOf t' i = parentOf t i :=
  parentOf_keep h (fun _ => rfl) i

theorem leftOf_setR {t t' : FlatTree α} {j : Nat} {c : Option Nat}
    (h : updNode t j (setR c) = some t') (i : Nat) :
    leftOf t' i = leftOf t i :=
  leftOf_keep h (fun _ => rfl) i

theorem depthOf_setR {t t' : FlatTree α} {j : Nat} {c : Option Nat}
    (h : updNode t j (setR c) = some t') (i : Nat) :
    depthOf t' i = depthOf t i :=
  depthOf_keep h (fun _ => rfl) i

theorem nameOf_setR {t t' : FlatTree α} {j : Nat} {c : Option Nat}
    (h : updNode t j (setR c) = some t') (i : Nat) :
    nameOf t' i = nameOf t i :=
  nameOf_keep h (fun _ => rfl) i

theorem depthOf_setD_self {t t' : FlatTree α} {j : Nat} {a : Option α}
    (h : updNode t j (setD a) = some t') : depthOf t' j = a := by
  obtain ⟨nd, _, hnd'⟩ := getNode_updNode_self h
  simp [depthOf, hnd', setD]

theorem depthOf_setD_ne {t t' : FlatTree α} {j : Nat} {a : Option α}
    (h : updNode t j (setD a) = some t') {i : Nat} (hij : i ≠ j) :
    depthOf t' i = depthOf t i := by
  simp [depthOf, getNode_updNode_ne h hij]

theorem parentOf_setD {t t' : FlatTree α} {j : Nat} {a : Option α}
    (h : updNode t j (setD a) = some t') (i : Nat) :
    parentOf t' i = parentOf t i :=
  parentOf_keep h (fun _ => rfl) i

theorem leftOf_setD {t t' : FlatTree α} {j : Nat} {a : Option α}
    (h : updNode t j (setD a) = some t') (i : Nat) :
    leftOf t' i = leftOf t i :=
  leftOf_keep h (fun _ => rfl) i

theorem rightOf_setD {t t' : FlatTree α} {j : Nat} {a : Option α}
    (h : updNode t j (setD a) = some t') (i : Nat) :
    rightOf t' i = rightOf t i :=
  rightOf_keep h (fun _ => rfl) i

theorem nameOf_setD {t t' : FlatTree α} {j : Nat} {a : Option α}
    (h : updNode t j (setD a) = some t') (i : Nat) :
    nameOf t' i = nameOf t i :=
  nameOf_keep h (fun _ => rfl) i

@[simp] theorem len_withRoot (t : FlatTree α) (r : Nat) :
    ({ t with root := r } : FlatTree α).len = t.len := rfl

@[simp] theorem getNode_withRoot (t : FlatTree α) (r i : Nat) :
    getNode { t with root := r } i = getNode t i := rfl

@[simp] theorem leftOf_withRoot (t : FlatTree α) (r i : Nat) :
    leftOf { t with root := r } i = leftOf t i := rfl

@[simp] theorem rightOf_withRoot (t : FlatTree α) (r i : Nat) :
    rightOf { t with root := r } i = rightOf t i := rfl

@[simp] theorem parentOf_withRoot (t : FlatTree α) (r i : Nat) :
    parentOf { t with root := r } i = parentOf t i := rfl

@[simp] theorem depthOf_withRoot (t : FlatTree α) (r i : Nat) :
    depthOf { t with root := r } i = depthOf t i := rfl

@[simp] theorem nameOf_withRoot (t : FlatTree α) (r i : Nat) :
    nameOf { t with root := r } i = nameOf t i := rfl

theorem leftOf_node {t : FlatTree α} {i : Nat} {nd : Node α}
    (h : getNode t i = some nd) : leftOf t i = nd.left_child := by
  simp [leftOf, h]

theorem rightOf_node {t : FlatTree α} {i : Nat} {nd : Node α}
    (h : getNode t i = some nd) : rightOf t i = nd.right_child := by
  simp [rightOf, h]

theorem parentOf_node {t : FlatTree α} {i : Nat} {nd : Node α}
    (h : getNode t i = some nd) : parentOf t i = nd.parent := by
  simp [parentOf, h]

theorem Inv.root_lt {t : FlatTree α} (h : Inv t) : t.root < t.len := h.1

theorem Inv.root_parent {t : FlatTree α} (h : Inv t) :
    parentOf t t.root = none := h.2.1

theorem Inv.unique_root {t : FlatTree α} (h : Inv t) {i : Nat}
    (hi : i < t.len) (hp : parentOf t i = none) : i = t.root :=
  h.2.2.1 i hi hp

theorem Inv.parent_lt {t : FlatTree α} (h : Inv t) {i p : Nat}
    (hi : i < t.len) (hp : parentOf t i = some p) : p < t.len := by
  have := h.2.2.2.1 i hi
  rw [hp] at this
  exact this

theorem Inv.left_lt {t : FlatTree α} (h : Inv t) {i c : Nat}
    (hi : i < t.len) (hc : leftOf t i = some c) : c < t.len := by
  have := h.2.2.2.2.1 i hi
  rw [hc] at this
  exact this

theorem Inv.right_lt {t : FlatTree α} (h : Inv t) {i c : Nat}
    (hi : i < t.len) (hc : rightOf t i = some c) : c < t.len := by
  have := h.2.2.2.2.2.1 i hi
  rw [hc] at this
  exact this

theorem Inv.binary {t : FlatTree α} (h : Inv t) {i : Nat} (hi : i < t.len) :
    (leftOf t i).isSome ↔ (rightOf t i).isSome :=
  h.2.2.2.2.2.2.1 i hi

theorem Inv.back_ref {t : FlatTree α} (h : Inv t) {i p : Nat}
    (hi : i < t.len) (hp : parentOf t i = some p) : ExactlyOneSlot t i p := by
  have := h.2.2.2.2.2.2.2.1 i hi
  rw [hp] at this
  exact this

theorem Inv.child_parent_left {t : FlatTree α} (h : Inv t) {i c : Nat}
    (hi : i < t.len) (hc : leftOf t i = some c) : parentOf t c = some i := by
  have := (h.2.2.2.2.2.2.2.2.1 i hi).1
  rw [hc] at this
  exact this

theorem Inv.child_parent_right {t : FlatTree α} (h : Inv t) {i c : Nat}
    (hi : i < t.len) (hc : rightOf t i = some c) : parentOf t c = some i := by
  have := (h.2.2.2.2.2.2.2.2.1 i hi).2
  rw [hc] at this
  exact this

theorem Inv.reaches_root {t : FlatTree α} (h : Inv t) {i : Nat}
    (hi : i < t.len) : ReachesRoot t i :=
  h.2.2.2.2.2.2.2.2.2.1 i hi

/-- Symbolic execution of the root-case branch `sprRoot`: under in-bounds
indices and present child slots it succeeds, and the lemma records the
resulting arena's root, length, every node outside the four written indices,
the depth stamp, the promoted sibling's cleared parent, and (when the donor's
parent is a different node than the recipient's parent) the final child
slots of the recipient's parent. -/
theorem sprRoot_char (t0 : FlatTree α) (donor dp recipient rp sib : Nat)
    (time : α)
    (hdonor : donor < t0.len) (hdp : dp < t0.len) (hrp : rp < t0.len)
    (hsib : sib < t0.len) (l0 r0 dl0 : Nat)
    (hrpl : leftOf t0 rp = some l0) (hrpr : rightOf t0 rp = some r0)
    (hdpl : leftOf t0 dp = some dl0) :
    ∃ t', sprRoot t0 donor dp recipient rp sib time = some t' ∧
      t'.len = t0.len ∧ t'.root = sib ∧
      (∀ i, nameOf t' i = nameOf t0 i) ∧
      (∀ i, i ≠ rp → depthOf t' i = depthOf t0 i) ∧
      depthOf t' rp = some time ∧
      (∀ i, i ≠ sib → i ≠ rp → i ≠ dp → i ≠ donor →
        getNode t' i = getNode t0 i) ∧
      (donor ≠ sib → rp ≠ sib → parentOf t' sib = none) ∧
      (dp ≠ rp → donor ≠ rp → parentOf t' rp = some dp) ∧
      (dp ≠ rp →
        (l0 = recipient → leftOf t' rp = some l0 ∧ rightOf t' rp = some donor) ∧
        (l0 ≠ recipient → leftOf t' rp = some donor ∧ rightOf t' rp = some r0)) := by
  obtain ⟨t1a, h1⟩ := updNode_exists (setPar none) hsib
  have hlen1 : t1a.len = t0.len := updNode_len h1
  obtain ⟨t2, h2⟩ :=
    updNode_exists (α := α) (t := { t1a with root := sib }) (setPar (some dp))
      (by simpa [hlen1] using hrp)
  have hlen2 : t2.len = t0.len := by
    have := updNode_len h2
    simpa [hlen1] using this
  -- the child slots of rp were not touched yet
  have hl2 : leftOf t2 rp = some l0 := by
    rw [leftOf_setPar h2 rp]
    simpa [leftOf_setPar h1 rp] using hrpl
  have hr2 : rightOf t2 rp = some r0 := by
    rw [rightOf_setPar h2 rp]
    simpa [rightOf_setPar h1 rp] using hrpr
  obtain ⟨rpn2, hrpn2, hrpn2l⟩ := Option.bind_eq_some.mp hl2
  -- the slot-overwrite step, split on which slot held the recipient
  by_cases hlrec : l0 = recipient
  · obtain ⟨t3, h3⟩ := updNode_exists (setR (some donor)) (hlen2 ▸ hrp)
    have hlen3 : t3.len = t0.len := by rw [updNode_len h3, hlen2]
    obtain ⟨t4, h4⟩ := updNode_exists (setD (some time)) (hlen3 ▸ hrp)
    have hlen4 : t4.len = t0.len := by rw [updNode_len h4, hlen3]
    -- left slot of dp at t4
    have hdl4 : (dp = rp → leftOf t4 dp = some l0) ∧
        (dp ≠ rp → leftOf t4 dp = some dl0) := by
      constructor
      · intro hdprp
        subst hdprp
        rw [leftOf_setD h4 dp, leftOf_setR h3 dp]
        exact hl2
      · intro hdprp
        rw [leftOf_setD h4 dp, leftOf_setR h3 dp, leftOf_setPar h2 dp,
          leftOf_withRoot, leftOf_setPar h1 dp]
        exact hdpl
    have hdl4ex : ∃ dl, leftOf t4 dp = some dl := by
      by_cases hdprp : dp = rp
      · exact ⟨l0, hdl4.1 hdprp⟩
      · exact ⟨dl0, hdl4.2 hdprp⟩
    obtain ⟨dl, hdl⟩ := hdl4ex
    obtain ⟨dpn4, hdpn4, hdpn4l⟩ := Option.bind_eq_some.mp hdl
    by_cases hdld : dl = donor
    · obtain ⟨t5, h5⟩ := updNode_exists (setL (some rp)) (hlen4 ▸ hdp)
      have hlen5 : t5.len = t0.len := by rw [updNode_len h5, hlen4]
      obtain ⟨t6, h6⟩ := updNode_exists (setPar (some rp)) (hlen5 ▸ hdonor)
      have hchain :
          sprRoot t0 donor dp recipient rp sib time = some t6 := by
        rw [sprRoot, h1]
        simp only [Option.some_bind]
        rw [h2]
        simp only [Option.some_bind]
        rw [hrpn2]
        simp only [Option.some_bind]
        rw [hrpn2l]
        simp only [Option.some_bind]
        rw [if_pos hlrec, h3]
        simp only [Option.some_bind]
        rw [h4]
        simp only [Option.some_bind]
        rw [hdpn4]
        simp only [Option.some_bind]
        rw [hdpn4l]
        simp only [Option.some_bind]
        rw [if_pos hdld, h5]
        simp only [Option.some_bind]
        exact h6
      refine ⟨t6, hchain, ?_, ?_, ?_, ?_, ?_, ?_, ?_, ?_, ?_⟩
      · rw [updNode_len h6, hlen5]
      · rw [updNode_root h6, updNode_root h5, updNode_root h4,
          updNode_root h3, updNode_root h2]
      · intro i
        rw [nameOf_setPar h6 i, nameOf_setL h5 i, nameOf_setD h4 i,
          nameOf_setR h3 i, nameOf_setPar h2 i, nameOf_withRoot,
          nameOf_setPar h1 i]
      · intro i hirp
        rw [depthOf_setPar h6 i, depthOf_setL h5 i, depthOf_setD_ne h4 hirp,
          depthOf_setR h3 i, depthOf_setPar h2 i, depthOf_withRoot,
          depthOf_setPar h1 i]
      · rw [depthOf_setPar h6 rp, depthOf_setL h5 rp, depthOf_setD_self h4]
      · intro i hisib hirp hidp hidonor
        rw [getNode_updNode_ne h6 hidonor, getNode_updNode_ne h5 hidp,
          getNode_updNode_ne h4 hirp, getNode_updNode_ne h3 hirp,
          getNode_updNode_ne h2 hirp, getNode_withRoot,
          getNode_updNode_ne h1 hisib]
      · intro hds hrs
        rw [parentOf_setPar_ne h6 (fun hc => hds hc.symm),
          parentOf_setL h5 sib, parentOf_setD h4 sib, parentOf_setR h3 sib,
          parentOf_setPar_ne h2 (fun hc => hrs hc.symm), parentOf_withRoot]
        exact parentOf_setPar_self h1
      · intro hdprp hdonrp
        rw [parentOf_setPar_ne h6 (fun hc => hdonrp (hc.symm)),
          parentOf_setL h5 rp, parentOf_setD h4 rp, parentOf_setR h3 rp]
        exact parentOf_setPar_self h2
      · intro hdprp
        have hl6 : leftOf t6 rp = some l0 := by
          rw [leftOf_setPar h6 rp, leftOf_setL_ne h5 (fun hc => hdprp hc.symm),
            leftOf_setD h4 rp, leftOf_setR h3 rp]
          exact hl2
        have hr6 : rightOf t6 rp = some donor := by
          rw [rightOf_setPar h6 rp, rightOf_setL h5 rp, rightOf_setD h4 rp]
          exact rightOf_setR_self h3
        exact ⟨fun _ => ⟨hl6, hr6⟩, fun hc => absurd hlrec hc⟩
    · obtain ⟨t5, h5⟩ := updNode_exists (setR (some rp)) (hlen4 ▸ hdp)
      have hlen5 : t5.len = t0.len := by rw [updNode_len h5, hlen4]
      obtain ⟨t6, h6⟩ := updNode_exists (setPar (some rp)) (hlen5 ▸ hdonor)
      have hchain :
          sprRoot t0 donor dp recipient rp sib time = some t6 := by
        rw [sprRoot, h1]
        simp only [Option.some_bind]
        rw [h2]
        simp only [Option.some_bind]
        rw [hrpn2]
        simp only [Option.some_bind]
        rw [hrpn2l]
        simp only [Option.some_bind]
        rw [if_pos hlrec, h3]
        simp only [Option.some_bind]
        rw [h4]
        simp only [Option.some_bind]
        rw [hdpn4]
        simp only [Option.some_bind]
        rw [hdpn4l]
        simp only [Option.some_bind]
        rw [if_neg hdld, h5]
        simp only [Option.some_bind]
        exact h6
      refine ⟨t6, hchain, ?_, ?_, ?_, ?_, ?_, ?_, ?_, ?_, ?_⟩
      · rw [updNode_len h6, hlen5]
      · rw [updNode_root h6, updNode_root h5, updNode_root h4,
          updNode_root h3, updNode_root h2]
      · intro i
        rw [nameOf_setPar h6 i, nameOf_setR h5 i, nameOf_setD h4 i,
          nameOf_setR h3 i, nameOf_setPar h2 i, nameOf_withRoot,
          nameOf_setPar h1 i]
      · intro i hirp
        rw [depthOf_setPar h6 i, depthOf_setR h5 i, depthOf_setD_ne h4 hirp,
          depthOf_setR h3 i, depthOf_setPar h2 i, depthOf_withRoot,
          depthOf_setPar h1 i]
      · rw [depthOf_setPar h6 rp, depthOf_setR h5 rp, depthOf_setD_self h4]
      · intro i hisib hirp hidp hidonor
        rw [getNode_updNode_ne h6 hidonor, getNode_updNode_ne h5 hidp,
          getNode_updNode_ne h4 hirp, getNode_updNode_ne h3 hirp,
          getNode_updNode_ne h2 hirp, getNode_withRoot,
          getNode_updNode_ne h1 hisib]
      · intro hds hrs
        rw [parentOf_setPar_ne h6 (fun hc => hds hc.symm),
          parentOf_setR h5 sib, parentOf_setD h4 sib, parentOf_setR h3 sib,
          parentOf_setPar_ne h2 (fun hc => hrs hc.symm), parentOf_withRoot]
        exact parentOf_setPar_self h1
      · intro hdprp hdonrp
        rw [parentOf_setPar_ne h6 (fun hc => hdonrp (hc.symm)),
          parentOf_setR h5 rp, parentOf_setD h4 rp, parentOf_setR h3 rp]
        exact parentOf_setPar_self h2
      · intro hdprp
        have hl6 : leftOf t6 rp = some l0 := by
          rw [leftOf_setPar h6 rp, leftOf_setR h5 rp,
            leftOf_setD h4 rp, leftOf_setR h3 rp]
          exact hl2
        have hr6 : rightOf t6 rp = some donor := by
          rw [rightOf_setPar h6 rp,
            rightOf_setR_ne h5 (fun hc => hdprp hc.symm),
            rightOf_setD h4 rp]
          exact rightOf_setR_self h3
        exact ⟨fun _ => ⟨hl6, hr6⟩, fun hc => absurd hlrec hc⟩
  · obtain ⟨t3, h3⟩ := updNode_exists (setL (some donor)) (hlen2 ▸ hrp)
    have hlen3 : t3.len = t0.len := by rw [updNode_len h3, hlen2]
    obtain ⟨t4, h4⟩ := updNode_exists (setD (some time)) (hlen3 ▸ hrp)
    have hlen4 : t4.len = t0.len := by rw [updNode_len h4, hlen3]
    have hdl4ex : ∃ dl, leftOf t4 dp = some dl := by
      by_cases hdprp : dp = rp
      · subst hdprp
        refine ⟨donor, ?_⟩
        rw [leftOf_setD h4 dp]
        exact leftOf_setL_self h3
      · refine ⟨dl0, ?_⟩
        rw [leftOf_setD h4 dp, leftOf_setL_ne h3 hdprp,
          leftOf_setPar h2 dp, leftOf_withRoot, leftOf_setPar h1 dp]
        exact hdpl
    obtain ⟨dl, hdl⟩ := hdl4ex
    obtain ⟨dpn4, hdpn4, hdpn4l⟩ := Option.bind_eq_some.mp hdl
    by_cases hdld : dl = donor
    · obtain ⟨t5, h5⟩ := updNode_exists (setL (some rp)) (hlen4 ▸ hdp)
      have hlen5 : t5.len = t0.len := by rw [updNode_len h5, hlen4]
      obtain ⟨t6, h6⟩ := updNode_exists (setPar (some rp)) (hlen5 ▸ hdonor)
      have hchain :
          sprRoot t0 donor dp recipient rp sib time = some t6 := by
        rw [sprRoot, h1]
        simp only [Option.some_bind]
        rw [h2]
        simp only [Option.some_bind]
        rw [hrpn2]
        simp only [Option.some_bind]
        rw [hrpn2l]
        simp only [Option.some_bind]
        rw [if_neg hlrec, h3]
        simp only [Option.some_bind]
        rw [h4]
        simp only [Option.some_bind]
        rw [hdpn4]
        simp only [Option.some_bind]
        rw [hdpn4l]
        simp only [Option.some_bind]
        rw [if_pos hdld, h5]
        simp only [Option.some_bind]
        exact h6
      refine ⟨t6, hchain, ?_, ?_, ?_, ?_, ?_, ?_, ?_, ?_, ?_⟩
      · rw [updNode_len h6, hlen5]
      · rw [updNode_root h6, updNode_root h5, updNode_root h4,
          updNode_root h3, updNode_root h2]
      · intro i
        rw [nameOf_setPar h6 i, nameOf_setL h5 i, nameOf_setD h4 i,
          nameOf_setL h3 i, nameOf_setPar h2 i, nameOf_withRoot,
          nameOf_setPar h1 i]
      · intro i hirp
        rw [depthOf_setPar h6 i, depthOf_setL h5 i, depthOf_setD_ne h4 hirp,
          depthOf_setL h3 i, depthOf_setPar h2 i, depthOf_withRoot,
          depthOf_setPar h1 i]
      · rw [depthOf_setPar h6 rp, depthOf_setL h5 rp, depthOf_setD_self h4]
      · intro i hisib hirp hidp hidonor
        rw [getNode_updNode_ne h6 hidonor, getNode_updNode_ne h5 hidp,
          getNode_updNode_ne h4 hirp, getNode_updNode_ne h3 hirp,
          getNode_updNode_ne h2 hirp, getNode_withRoot,
          getNode_updNode_ne h1 hisib]
      · intro hds hrs
        rw [parentOf_setPar_ne h6 (fun hc => hds hc.symm),
          parentOf_setL h5 sib, parentOf_setD h4 sib, parentOf_setL h3 sib,
          parentOf_setPar_ne h2 (fun hc => hrs hc.symm), parentOf_withRoot]
        exact parentOf_setPar_self h1
      · intro hdprp hdonrp
        rw [parentOf_setPar_ne h6 (fun hc => hdonrp (hc.symm)),
          parentOf_setL h5 rp, parentOf_setD h4 rp, parentOf_setL h3 rp]
        exact parentOf_setPar_self h2
      · intro hdprp
        have hl6 : leftOf t6 rp = some donor := by
          rw [leftOf_setPar h6 rp, leftOf_setL_ne h5 (fun hc => hdprp hc.symm),
            leftOf_setD h4 rp]
          exact leftOf_setL_self h3
        have hr6 : rightOf t6 rp = some r0 := by
          rw [rightOf_setPar h6 rp, rightOf_setL h5 rp, rightOf_setD h4 rp,
            rightOf_setL h3 rp]
          exact hr2
        exact ⟨fun hc => absurd hc hlrec, fun _ => ⟨hl6, hr6⟩⟩
    · obtain ⟨t5, h5⟩ := updNode_exists (setR (some rp)) (hlen4 ▸ hdp)
      have hlen5 : t5.len = t0.len := by rw [updNode_len h5, hlen4]
      obtain ⟨t6, h6⟩ := updNode_exists (setPar (some rp)) (hlen5 ▸ hdonor)
      have hchain :
          sprRoot t0 donor dp recipient rp sib time = some t6 := by
        rw [sprRoot, h1]
        simp only [Option.some_bind]
        rw [h2]
        simp only [Option.some_bind]
        rw [hrpn2]
        simp only [Option.some_bind]
        rw [hrpn2l]
        simp only [Option.some_bind]
        rw [if_neg hlrec, h3]
        simp only [Option.some_bind]
        rw [h4]
        simp only [Option.some_bind]
        rw [hdpn4]
        simp only [Option.some_bind]
        rw [hdpn4l]
        simp only [Option.some_bind]
        rw [if_neg hdld, h5]
        simp only [Option.some_bind]
        exact h6
      refine ⟨t6, hchain, ?_, ?_, ?_, ?_, ?_, ?_, ?_, ?_, ?_⟩
      · rw [updNode_len h6, hlen5]
      · rw [updNode_root h6, updNode_root h5, updNode_root h4,
          updNode_root h3, updNode_root h2]
      · intro i
        rw [nameOf_setPar h6 i, nameOf_setR h5 i, nameOf_setD h4 i,
          nameOf_setL h3 i, nameOf_setPar h2 i, nameOf_withRoot,
          nameOf_setPar h1 i]
      · intro i hirp
        rw [depthOf_setPar h6 i, depthOf_setR h5 i, depthOf_setD_ne h4 hirp,
          depthOf_setL h3 i, depthOf_setPar h2 i, depthOf_withRoot,
          depthOf_setPar h1 i]
      · rw [depthOf_setPar h6 rp, depthOf_setR h5 rp, depthOf_setD_self h4]
      · intro i hisib hirp hidp hidonor
        rw [getNode_updNode_ne h6 hidonor, getNode_updNode_ne h5 hidp,
          getNode_updNode_ne h4 hirp, getNode_updNode_ne h3 hirp,
          getNode_updNode_ne h2 hirp, getNode_withRoot,
          getNode_updNode_ne h1 hisib]
      · intro hds hrs
        rw [parentOf_setPar_ne h6 (fun hc => hds hc.symm),
          parentOf_setR h5 sib, parentOf_setD h4 sib, parentOf_setL h3 sib,
          parentOf_setPar_ne h2 (fun hc => hrs hc.symm), parentOf_withRoot]
        exact parentOf_setPar_self h1
      · intro hdprp hdonrp
        rw [parentOf_setPar_ne h6 (fun hc => hdonrp (hc.symm)),
          parentOf_setR h5 rp, parentOf_setD h4 rp, parentOf_setL h3 rp]
        exact parentOf_setPar_self h2
      · intro hdprp
        have hl6 : leftOf t6 rp = some donor := by
          rw [leftOf_setPar h6 rp, leftOf_setR h5 rp, leftOf_setD h4 rp]
          exact leftOf_setL_self h3
        have hr6 : rightOf t6 rp = some r0 := by
          rw [rightOf_setPar h6 rp,
            rightOf_setR_ne h5 (fun hc => hdprp hc.symm),
            rightOf_setD h4 rp, rightOf_setL h3 rp]
          exact hr2
        exact ⟨fun hc => absurd hc hlrec, fun _ => ⟨hl6, hr6⟩⟩

/-- Facts common to both branches of a conditional child-slot overwrite of
the shape used throughout `spr`. -/
theorem updSlotLR_facts {t t' : FlatTree α} {j : Nat} {x : Option Nat}
    {c : Prop} [Decidable c]
    (h : (if c then updNode t j (setL x) else updNode t j (setR x)) =
      some t') :
    t'.len = t.len ∧ t'.root = t.root ∧
    (∀ i, nameOf t' i = nameOf t i) ∧
    (∀ i, depthOf t' i = depthOf t i) ∧
    (∀ i, parentOf t' i = parentOf t i) ∧
    (∀ i, i ≠ j → getNode t' i = getNode t i) := by
  split at h
  · exact ⟨updNode_len h, updNode_root h, fun i => nameOf_setL h i,
      fun i => depthOf_setL h i, fun i => parentOf_setL h i,
      fun i hij => getNode_updNode_ne h hij⟩
  · exact ⟨updNode_len h, updNode_root h, fun i => nameOf_setR h i,
      fun i => depthOf_setR h i, fun i => parentOf_setR h i,
      fun i hij => getNode_updNode_ne h hij⟩

/-- A conditional child-slot overwrite succeeds whenever the index is in
bounds. -/
theorem updSlotLR_exists {t : FlatTree α} {j : Nat} (c : Prop) [Decidable c]
    (x : Option Nat) (hj : j < t.len) :
    ∃ t', (if c then updNode t j (setL x) else updNode t j (setR x)) =
      some t' := by
  by_cases hc : c
  · rw [if_pos hc]
    exact updNode_exists _ hj
  · rw [if_neg hc]
    exact updNode_exists _ hj

theorem leftOf_updNode_ne {t t' : FlatTree α} {j : Nat}
    {f : Node α → Node α} (h : updNode t j f = some t') {i : Nat}
    (hij : i ≠ j) : leftOf t' i = leftOf t i := by
  simp [leftOf, getNode_updNode_ne h hij]

/-- Presence of a left child survives any node update that never erases a
left child. -/
theorem leftOf_isSome_after {t t' : FlatTree α} {j : Nat}
    {f : Node α → Node α} (h : updNode t j f = some t')
    (hf : ∀ nd : Node α, nd.left_child.isSome → ((f nd).left_child).isSome)
    (i : Nat) (hi : (leftOf t i).isSome) : (leftOf t' i).isSome := by
  by_cases hij : i = j
  · subst hij
    obtain ⟨nd, hnd, hnd'⟩ := getNode_updNode_self h
    rw [leftOf_node hnd] at hi
    rw [leftOf_node hnd']
    exact hf nd hi
  · rw [leftOf_updNode_ne h hij]
    exact hi

/-- Presence of a left child survives a conditional child-slot overwrite
writing a present slot. -/
theorem leftOf_isSome_afterLR {t t' : FlatTree α} {j : Nat} {x : Nat}
    {c : Prop} [Decidable c]
    (h : (if c then updNode t j (setL (some x))
      else updNode t j (setR (some x))) = some t')
    (i : Nat) (hi : (leftOf t i).isSome) : (leftOf t' i).isSome := by
  split at h
  · exact leftOf_isSome_after h
      (fun nd _ => by simp [setL]) i hi
  · exact leftOf_isSome_after h
      (fun nd hnd => by simpa [setR] using hnd) i hi

/-- Frame of the non-root branch: a successful run preserves the arena size,
the designated root index, every name, and the depth of every node except
the recipient's parent (which is stamped with `time`); nodes other than the
donor, the donor's parent, the recipient's parent, the sibling and the
grandparent are untouched. -/
theorem sprNonRoot_frame {t0 t' : FlatTree α}
    {donor dp recipient rp sib : Nat} {rgp : Option Nat} {time : α}
    (h : sprNonRoot t0 donor dp recipient rp sib rgp time = some t') :
    t'.len = t0.len ∧ t'.root = t0.root ∧
    (∀ i, nameOf t' i = nameOf t0 i) ∧
    (∀ i, i ≠ rp → depthOf t' i = depthOf t0 i) ∧
    depthOf t' rp = some time ∧
    (∀ i, i ≠ donor → i ≠ dp → i ≠ rp → i ≠ sib →
      (∀ gp, rgp = some gp → i ≠ gp) → getNode t' i = getNode t0 i) := by
  rw [sprNonRoot] at h
  rcases Option.bind_eq_some.mp h with ⟨t1, h1, h⟩
  rcases Option.bind_eq_some.mp h with ⟨rpn1, hrpn1, h⟩
  rcases Option.bind_eq_some.mp h with ⟨rl1, hrl1, h⟩
  rcases Option.bind_eq_some.mp h with ⟨t2, h2, h⟩
  rcases Option.bind_eq_some.mp h with ⟨t3, h3, h⟩
  rcases Option.bind_eq_some.mp h with ⟨t4, h4, h⟩
  rcases Option.bind_eq_some.mp h with ⟨dpn, hdpn, h⟩
  rcases Option.bind_eq_some.mp h with ⟨dl, hdl, h⟩
  rcases Option.bind_eq_some.mp h with ⟨t5, h5, h6⟩
  obtain ⟨hlen2, hroot2, hname2, hdepth2, hpar2, hget2⟩ := updSlotLR_facts h2
  obtain ⟨hlen5, hroot5, hname5, hdepth5, hpar5, hget5⟩ := updSlotLR_facts h5
  -- facts for the grandparent segment t3 → t4
  have hseg : t4.len = t3.len ∧ t4.root = t3.root ∧
      (∀ i, nameOf t4 i = nameOf t3 i) ∧
      (∀ i, depthOf t4 i = depthOf t3 i) ∧
      (∀ i, i ≠ sib → (∀ gp, rgp = some gp → i ≠ gp) →
        getNode t4 i = getNode t3 i) := by
    rcases rgp with _ | gp
    · have h4' : t3 = t4 := Option.some.inj h4
      subst h4'
      exact ⟨rfl, rfl, fun _ => rfl, fun _ => rfl, fun _ _ _ => rfl⟩
    · rcases Option.bind_eq_some.mp h4 with ⟨gpn, hgpn, h4⟩
      rcases Option.bind_eq_some.mp h4 with ⟨gl, hgl, h4⟩
      rcases Option.bind_eq_some.mp h4 with ⟨t4a, h4a, h4b⟩
      obtain ⟨hlen4a, hroot4a, hname4a, hdepth4a, hpar4a, hget4a⟩ :=
        updSlotLR_facts h4a
      refine ⟨?_, ?_, ?_, ?_, ?_⟩
      · rw [updNode_len h4b, hlen4a]
      · rw [updNode_root h4b, hroot4a]
      · intro i
        rw [nameOf_setPar h4b i, hname4a i]
      · intro i
        rw [depthOf_setPar h4b i, hdepth4a i]
      · intro i hisib higp
        rw [getNode_updNode_ne h4b hisib, hget4a i (higp gp rfl)]
  obtain ⟨hlen4, hroot4, hname4, hdepth4, hget4⟩ := hseg
  refine ⟨?_, ?_, ?_, ?_, ?_, ?_⟩
  · rw [updNode_len h6, hlen5, hlen4, updNode_len h3, hlen2,
      updNode_len h1]
  · rw [updNode_root h6, hroot5, hroot4, updNode_root h3, hroot2,
      updNode_root h1]
  · intro i
    rw [nameOf_setPar h6 i, hname5 i, hname4 i, nameOf_setD h3 i,
      hname2 i, nameOf_setPar h1 i]
  · intro i hirp
    rw [depthOf_setPar h6 i, hdepth5 i, hdepth4 i, depthOf_setD_ne h3 hirp,
      hdepth2 i, depthOf_setPar h1 i]
  · rw [depthOf_setPar h6 rp, hdepth5 rp, hdepth4 rp]
    exact depthOf_setD_self h3
  · intro i hid hidp hirp hisib higp
    rw [getNode_updNode_ne h6 hid, hget5 i hidp, hget4 i hisib higp,
      getNode_updNode_ne h3 hirp, hget2 i hirp, getNode_updNode_ne h1 hirp]

/-- The non-root branch succeeds whenever the written indices are in bounds
and the left slots it unwraps are present in the starting arena. -/
theorem sprNonRoot_isSome (t0 : FlatTree α)
    (donor dp recipient rp sib : Nat) (rgp : Option Nat) (time : α)
    (hdonor : donor < t0.len) (hdp : dp < t0.len) (hrp : rp < t0.len)
    (hsib : sib < t0.len)
    (hrgp : ∀ gp, rgp = some gp → gp < t0.len ∧ (leftOf t0 gp).isSome)
    (hrpl : (leftOf t0 rp).isSome) (hdpl : (leftOf t0 dp).isSome) :
    ∃ t', sprNonRoot t0 donor dp recipient rp sib rgp time = some t' := by
  obtain ⟨t1, h1⟩ := updNode_exists (setPar (some dp)) hrp
  have hlen1 : t1.len = t0.len := updNode_len h1
  have hl1 : ∀ i, leftOf t1 i = leftOf t0 i := leftOf_setPar h1
  have hl1rp : (leftOf t1 rp).isSome := by rw [hl1 rp]; exact hrpl
  rcases Option.isSome_iff_exists.mp hl1rp with ⟨rl1, hrl1⟩
  rcases Option.bind_eq_some.mp hrl1 with ⟨rpn1, hrpn1, hrpn1l⟩
  obtain ⟨t2, h2⟩ :=
    updSlotLR_exists (t := t1) (j := rp) (rl1 = recipient) (some donor)
      (hlen1 ▸ hrp)
  obtain ⟨hlen2, _, _, _, _, _⟩ := updSlotLR_facts h2
  obtain ⟨t3, h3⟩ := updNode_exists (setD (some time)) (by
    rw [hlen2, hlen1]; exact hrp)
  have hlen3 : t3.len = t0.len := by rw [updNode_len h3, hlen2, hlen1]
  have hl3 : ∀ i, (leftOf t0 i).isSome → (leftOf t3 i).isSome := by
    intro i hi
    have s1 : (leftOf t1 i).isSome := by rw [hl1 i]; exact hi
    have s2 : (leftOf t2 i).isSome := leftOf_isSome_afterLR h2 i s1
    exact leftOf_isSome_after h3 (fun nd hnd => by simpa [setD] using hnd)
      i s2
  -- the grandparent segment
  have hseg : ∃ t4, (match rgp with
      | some gp =>
        (getNode t3 gp).bind fun gpn =>
        gpn.left_child.bind fun gl =>
        (if gl = rp
          then updNode t3 gp (setL (some sib))
          else updNode t3 gp (setR (some sib))).bind
            fun t4a =>
        updNode t4a sib (setPar (some gp))
      | none => some t3) = some t4 ∧ t4.len = t0.len ∧
      (∀ i, (leftOf t3 i).isSome → (leftOf t4 i).isSome) := by
    rcases rgp with _ | gp
    · exact ⟨t3, rfl, hlen3, fun _ hi => hi⟩
    · obtain ⟨hgplt, hgpl⟩ := hrgp gp rfl
      have hgl3 : (leftOf t3 gp).isSome := hl3 gp hgpl
      rcases Option.isSome_iff_exists.mp hgl3 with ⟨gl, hgl⟩
      rcases Option.bind_eq_some.mp hgl with ⟨gpn, hgpn, hgpnl⟩
      obtain ⟨t4a, h4a⟩ :=
        updSlotLR_exists (t := t3) (j := gp) (gl = rp) (some sib)
          (hlen3 ▸ hgplt)
      obtain ⟨hlen4a, _, _, _, _, _⟩ := updSlotLR_facts h4a
      obtain ⟨t4, h4b⟩ := updNode_exists (setPar (some gp)) (by
        rw [hlen4a, hlen3]; exact hsib)
      refine ⟨t4, ?_, ?_, ?_⟩
      · show ((getNode t3 gp).bind fun gpn =>
            gpn.left_child.bind fun gl =>
            (if gl = rp
              then updNode t3 gp (setL (some sib))
              else updNode t3 gp (setR (some sib))).bind fun t4a =>
            updNode t4a sib (setPar (some gp))) = some t4
        rw [hgpn]
        simp only [Option.some_bind]
        rw [hgpnl]
        simp only [Option.some_bind]
        rw [h4a]
        simp only [Option.some_bind]
        exact h4b
      · rw [updNode_len h4b, hlen4a, hlen3]
      · intro i hi
        have s1 : (leftOf t4a i).isSome := leftOf_isSome_afterLR h4a i hi
        exact leftOf_isSome_after h4b
          (fun nd hnd => by simpa [setPar] using hnd) i s1
  obtain ⟨t4, h4, hlen4, hl4⟩ := hseg
  have hdl4 : (leftOf t4 dp).isSome := hl4 dp (hl3 dp hdpl)
  rcases Option.isSome_iff_exists.mp hdl4 with ⟨dl, hdl⟩
  rcases Option.bind_eq_some.mp hdl with ⟨dpn, hdpn, hdpnl⟩
  obtain ⟨t5, h5⟩ :=
    updSlotLR_exists (t := t4) (j := dp) (dl = donor) (some rp)
      (hlen4 ▸ hdp)
  obtain ⟨hlen5, _, _, _, _, _⟩ := updSlotLR_facts h5
  obtain ⟨t6, h6⟩ := updNode_exists (setPar (some rp)) (by
    rw [hlen5, hlen4]; exact hdonor)
  refine ⟨t6, ?_⟩
  rw [sprNonRoot, h1]
  simp only [Option.some_bind]
  rw [hrpn1]
  simp only [Option.some_bind]
  rw [hrpn1l]
  simp only [Option.some_bind]
  rw [h2]
  simp only [Option.some_bind]
  rw [h3]
  simp only [Option.some_bind]
  rw [h4]
  simp only [Option.some_bind]
  rw [hdpn]
  simp only [Option.some_bind]
  rw [hdpnl]
  simp only [Option.some_bind]
  rw [h5]
  simp only [Option.some_bind]
  exact h6

/-- Under the invariants, the parent of any node has both child slots
present: the node occupies one slot of its parent (back-reference), and
internal nodes are strictly binary. -/
theorem childrenPresent {t : FlatTree α} (h : Inv t) {x p : Nat}
    (hx : x < t.len) (hp : parentOf t x = some p) :
    (leftOf t p).isSome ∧ (rightOf t p).isSome := by
  have hone := h.back_ref hx hp
  have hbin := h.binary (h.parent_lt hx hp)
  rcases hone with ⟨hl, _⟩ | ⟨hr, _⟩
  · have : (leftOf t p).isSome := by rw [hl]; rfl
    exact ⟨this, hbin.mp this⟩
  · have : (rightOf t p).isSome := by rw [hr]; rfl
    exact ⟨hbin.mpr (by rw [hr]; rfl), by rw [hr]; rfl⟩

/-- Evaluation of the prelude of `spr` (source lines 14-41): with the reads
it performs supplied as hypotheses, `spr` reduces to the branch dispatch. -/
theorem spr_eq {t : FlatTree α} {donor recipient dp rp rl sib : Nat}
    {dn rn rpn : Node α} {time : α}
    (hdn : getNode t donor = some dn) (hdnp : dn.parent = some dp)
    (hrn : getNode t recipient = some rn) (hrnp : rn.parent = some rp)
    (hrpn : getNode t rp = some rpn) (hrpnl : rpn.left_child = some rl)
    (hsib : (if rl = recipient then rpn.right_child else some rl) =
      some sib) :
    spr t donor recipient time =
      if rpn.parent = none then sprRoot t donor dp recipient rp sib time
      else sprNonRoot t donor dp recipient rp sib rpn.parent time := by
  rw [spr, hdn]
  simp only [Option.some_bind]
  rw [hdnp]
  simp only [Option.some_bind]
  rw [hrn]
  simp only [Option.some_bind]
  rw [hrnp]
  simp only [Option.some_bind]
  rw [hrpn]
  simp only [Option.some_bind]
  rw [hrpnl]
  simp only [Option.some_bind]
  rw [hsib]
  simp only [Option.some_bind]

/-- If the donor has no recorded parent, `spr` aborts (the first `expect`
of the source). -/
theorem spr_none_of_donor_root {t : FlatTree α} {donor recipient : Nat}
    {time : α} {dn : Node α} (hdn : getNode t donor = some dn)
    (hdnp : dn.parent = none) : spr t donor recipient time = none := by
  rw [spr, hdn]
  simp only [Option.some_bind]
  rw [hdnp]
  rfl

/-- If the recipient has no recorded parent, `spr` aborts (the second
`expect` of the source). -/
theorem spr_none_of_recipient_root {t : FlatTree α} {donor recipient : Nat}
    {time : α} {dn rn : Node α} {dp : Nat}
    (hdn : getNode t donor = some dn) (hdnp : dn.parent = some dp)
    (hrn : getNode t recipient = some rn) (hrnp : rn.parent = none) :
    spr t donor recipient time = none := by
  rw [spr, hdn]
  simp only [Option.some_bind]
  rw [hdnp]
  simp only [Option.some_bind]
  rw [hrn]
  simp only [Option.some_bind]
  rw [hrnp]
  rfl

/-- Under the invariants, `spr` succeeds whenever the donor and recipient
are in bounds and both have parents: every internal `unwrap` of a child
slot finds a present slot. -/
theorem spr_isSome {t : FlatTree α} {donor recipient dp rp : Nat} (time : α)
    (hInv : Inv t) (hd : donor < t.len) (hr : recipient < t.len)
    (hpd : parentOf t donor = some dp) (hpr : parentOf t recipient = some rp) :
    ∃ t', spr t donor recipient time = some t' := by
  obtain ⟨dn, hdn⟩ := getNode_eq_some_of_lt hd
  have hdnp : dn.parent = some dp := by
    rw [parentOf_node hdn] at hpd
    exact hpd
  obtain ⟨rn, hrn⟩ := getNode_eq_some_of_lt hr
  have hrnp : rn.parent = some rp := by
    rw [parentOf_node hrn] at hpr
    exact hpr
  have hrp_lt : rp < t.len := hInv.parent_lt hr hpr
  obtain ⟨rpn, hrpn⟩ := getNode_eq_some_of_lt hrp_lt
  obtain ⟨hLs, hRs⟩ := childrenPresent hInv hr hpr
  rw [leftOf_node hrpn] at hLs
  rw [rightOf_node hrpn] at hRs
  rcases Option.isSome_iff_exists.mp hLs with ⟨rl, hrl⟩
  rcases Option.isSome_iff_exists.mp hRs with ⟨rr, hrr⟩
  obtain ⟨sib, hsib, hsib_lt⟩ : ∃ s,
      (if rl = recipient then rpn.right_child else some rl) = some s ∧
        s < t.len := by
    by_cases hc : rl = recipient
    · exact ⟨rr, by rw [if_pos hc]; exact hrr,
        hInv.right_lt hrp_lt (by rw [rightOf_node hrpn]; exact hrr)⟩
    · exact ⟨rl, by rw [if_neg hc],
        hInv.left_lt hrp_lt (by rw [leftOf_node hrpn]; exact hrl)⟩
  have hdp_lt : dp < t.len := hInv.parent_lt hd hpd
  obtain ⟨hdpLs, _⟩ := childrenPresent hInv hd hpd
  rw [spr_eq hdn hdnp hrn hrnp hrpn hrl hsib]
  rcases hpar : rpn.parent with _ | gp
  · rw [if_pos rfl]
    rcases Option.isSome_iff_exists.mp hdpLs with ⟨dl0, hdl0⟩
    obtain ⟨t', heq, _⟩ := sprRoot_char t donor dp recipient rp sib time
      hd hdp_lt hrp_lt hsib_lt rl rr dl0
      (by rw [leftOf_node hrpn]; exact hrl)
      (by rw [rightOf_node hrpn]; exact hrr) hdl0
    exact ⟨t', heq⟩
  · rw [if_neg (by simp)]
    have hgrp : parentOf t rp = some gp := by
      rw [parentOf_node hrpn]
      exact hpar
    exact sprNonRoot_isSome t donor dp recipient rp sib (some gp) time
      hd hdp_lt hrp_lt hsib_lt
      (fun g hg => by
        cases Option.some.inj hg
        exact ⟨hInv.parent_lt hrp_lt hgrp,
          (childrenPresent hInv hrp_lt hgrp).1⟩)
      (by rw [leftOf_node hrpn, hrl]; rfl) hdpLs

/-- Claim C7: under the §3 invariants, with donor and recipient indices in
bounds, `spr` aborts fatally exactly when the donor or the recipient has no
recorded parent (is the current root); when both have parents, every
internal unwrap succeeds and the operator completes. -/
theorem claim_C7 (t : FlatTree α) (donor recipient : Nat) (time : α)
    (hInv : Inv t) (hd : donor < t.len) (hr : recipient < t.len) :
    spr t donor recipient time = none ↔
      parentOf t donor = none ∨ parentOf t recipient = none := by
  constructor
  · intro hnone
    rcases hpd : parentOf t donor with _ | dp
    · exact Or.inl rfl
    · rcases hpr : parentOf t recipient with _ | rp
      · exact Or.inr rfl
      · obtain ⟨t', heq⟩ :=
          spr_isSome time hInv hd hr hpd hpr
        rw [heq] at hnone
        cases hnone
  · intro hcase
    rcases hcase with hpd | hpr
    · obtain ⟨dn, hdn⟩ := getNode_eq_some_of_lt hd
      rw [parentOf_node hdn] at hpd
      exact spr_none_of_donor_root hdn hpd
    · rcases hpd : parentOf t donor with _ | dp
      · obtain ⟨dn, hdn⟩ := getNode_eq_some_of_lt hd
        rw [parentOf_node hdn] at hpd
        exact spr_none_of_donor_root hdn hpd
      · obtain ⟨dn, hdn⟩ := getNode_eq_some_of_lt hd
        rw [parentOf_node hdn] at hpd
        obtain ⟨rn, hrn⟩ := getNode_eq_some_of_lt hr
        rw [parentOf_node hrn] at hpr
        exact spr_none_of_recipient_root hdn hpd hrn hpr

/-- Witness for claim C7 at a concrete arena: `((A,B),C);` with donor `A`
(index 2) and recipient `C` (index 4), both with parents, does not abort. -/
theorem claim_C7_witness : Inv exA ∧ spr exA 2 4 (5 : Int) ≠ none := by
  constructor
  · decide
  · intro hnone
    rcases (claim_C7 exA 2 4 (5 : Int) (by decide) (by decide)
        (by decide)).mp hnone with h | h
    · exact absurd h (by decide)
    · exact absurd h (by decide)

/-- Claim C1, evaluation at the failing input: the arena of
`((A,B),(C,D));` satisfies every §3 invariant, donor `A` (index 2) is not an
ancestor of recipient `C` (index 5) and neither is the root, yet after `spr`
the invariants are violated (the node count is preserved, but recipient `C`
records parent 4 while occupying no child slot of node 4, breaking
back-reference consistency). -/
theorem claim_C1_code_eval :
    Inv ex1 ∧
    parentOf ex1 2 = some 1 ∧ parentOf ex1 5 = some 4 ∧
    iterParent ex1 1 5 = some 4 ∧ iterParent ex1 2 5 = some 0 ∧
    iterParent ex1 3 5 = none ∧
    spr ex1 2 5 (9 : Int) = some ex1spr ∧
    ex1spr.len = ex1.len ∧
    ¬Inv ex1spr := by
  refine ⟨by decide, by decide, by decide, by decide, by decide, by decide,
    by decide, by decide, by decide⟩

/-- Claim C3, evaluation at the spec's Example 1: on `((A,B),(C,D));` with
donor `A` (index 2) and recipient `C` (index 5), the arena `spr` produces
does not have `A` and `C` as siblings: `C` occupies no child slot of any
node at all (and is not the root), so the claimed shape
`((B,D),(A,C));` is not produced under any sibling-order convention. -/
theorem claim_C3_code_eval :
    nameOf ex1 2 = some "A" ∧ nameOf ex1 5 = some "C" ∧
    spr ex1 2 5 (9 : Int) = some ex1spr ∧
    ex1spr.root = 0 ∧
    ¬leftOf ex1spr 0 = some 5 ∧ ¬rightOf ex1spr 0 = some 5 ∧
    ¬leftOf ex1spr 1 = some 5 ∧ ¬rightOf ex1spr 1 = some 5 ∧
    ¬leftOf ex1spr 2 = some 5 ∧ ¬rightOf ex1spr 2 = some 5 ∧
    ¬leftOf ex1spr 3 = some 5 ∧ ¬rightOf ex1spr 3 = some 5 ∧
    ¬leftOf ex1spr 4 = some 5 ∧ ¬rightOf ex1spr 4 = some 5 ∧
    ¬leftOf ex1spr 5 = some 5 ∧ ¬rightOf ex1spr 5 = some 5 ∧
    ¬leftOf ex1spr 6 = some 5 ∧ ¬rightOf ex1spr 6 = some 5 := by
  decide

/-- Claim C4, evaluation at the failing input: in the non-root case on
`((A,B),(C,D));` with donor `A` (index 2) and recipient `C` (index 5,
parent 4), after `spr` the repurposed junction (node 4) parents the donor
and the stale sibling `D` (index 6), but not the original recipient `C` —
contradicting the claimed net effect in the non-root case. -/
theorem claim_C4_code_eval :
    parentOf ex1 5 = some 4 ∧
    spr ex1 2 5 (9 : Int) = some ex1spr ∧
    leftOf ex1spr 4 = some 2 ∧ rightOf ex1spr 4 = some 6 ∧
    ¬leftOf ex1spr 4 = some 5 ∧ ¬rightOf ex1spr 4 = some 5 ∧
    parentOf ex1spr 5 = some 4 := by
  decide

/-- Claim C5, counterexample: on `((A,B),C);` with donor `A` (index 2) and
recipient `C` (index 4) the recipient's parent is the root (index 0) and
the right slot of the root held the recipient; after `spr` that slot still
holds the recipient — it is the other slot (the one that held the sibling)
that is overwritten with the donor, refuting the claim's description of the
child-slot rewrite in the root case. -/
theorem claim_C5_counterexample :
    parentOf exA 2 = some 1 ∧ parentOf exA 4 = some 0 ∧
    parentOf exA 0 = none ∧ rightOf exA 0 = some 4 ∧
    spr exA 2 4 (9 : Int) = some exA24 ∧
    rightOf exA24 0 = some 4 ∧ ¬rightOf exA24 0 = some 2 ∧
    leftOf exA24 0 = some 2 ∧ depthOf exA24 0 = some 9 := by
  decide

/-- Claim C5 (amended): in the root case — provided the donor's parent is
not the recipient's parent — the child-slot rewrite of the recipient's
parent overwrites the slot that held the recipient's sibling with the
donor, leaves the slot holding the recipient unchanged, and sets the depth
field to `time`. -/
theorem claim_C5_amended (t : FlatTree α) (donor recipient dp rp rl rr : Nat)
    (time : α) (hInv : Inv t) (hd : donor < t.len) (hr : recipient < t.len)
    (hpd : parentOf t donor = some dp) (hpr : parentOf t recipient = some rp)
    (hroot : parentOf t rp = none) (hdprp : dp ≠ rp)
    (hrl : leftOf t rp = some rl) (hrr : rightOf t rp = some rr) :
    ∃ t', spr t donor recipient time = some t' ∧
      depthOf t' rp = some time ∧
      (rl = recipient →
        leftOf t' rp = some recipient ∧ rightOf t' rp = some donor) ∧
      (rl ≠ recipient →
        rightOf t' rp = some recipient ∧ leftOf t' rp = some donor) := by
  obtain ⟨dn, hdn⟩ := getNode_eq_some_of_lt hd
  have hdnp : dn.parent = some dp := by
    rw [parentOf_node hdn] at hpd
    exact hpd
  obtain ⟨rn, hrn⟩ := getNode_eq_some_of_lt hr
  have hrnp : rn.parent = some rp := by
    rw [parentOf_node hrn] at hpr
    exact hpr
  have hrp_lt : rp < t.len := hInv.parent_lt hr hpr
  obtain ⟨rpn, hrpn⟩ := getNode_eq_some_of_lt hrp_lt
  have hrpnl : rpn.left_child = some rl := by
    rw [leftOf_node hrpn] at hrl
    exact hrl
  have hrpnr : rpn.right_child = some rr := by
    rw [rightOf_node hrpn] at hrr
    exact hrr
  have hrpnp : rpn.parent = none := by
    rw [parentOf_node hrpn] at hroot
    exact hroot
  obtain ⟨sib, hsib, hsib_lt⟩ : ∃ s,
      (if rl = recipient then rpn.right_child else some rl) = some s ∧
        s < t.len := by
    by_cases hc : rl = recipient
    · exact ⟨rr, by rw [if_pos hc]; exact hrpnr, hInv.right_lt hrp_lt hrr⟩
    · exact ⟨rl, by rw [if_neg hc], hInv.left_lt hrp_lt hrl⟩
  have hdp_lt : dp < t.len := hInv.parent_lt hd hpd
  obtain ⟨hdpLs, _⟩ := childrenPresent hInv hd hpd
  rcases Option.isSome_iff_exists.mp hdpLs with ⟨dl0, hdl0⟩
  obtain ⟨t', heq, _, _, _, _, hdep, _, _, _, hslots⟩ :=
    sprRoot_char t donor dp recipient rp sib time hd hdp_lt hrp_lt hsib_lt
      rl rr dl0 hrl hrr hdl0
  refine ⟨t', ?_, hdep, ?_, ?_⟩
  · rw [spr_eq hdn hdnp hrn hrnp hrpn hrpnl hsib, if_pos hrpnp]
    exact heq
  · intro hc
    obtain ⟨hl', hr'⟩ := (hslots hdprp).1 hc
    exact ⟨by rw [hl', hc], hr'⟩
  · intro hc
    obtain ⟨hl', hr'⟩ := (hslots hdprp).2 hc
    have hrrec : rr = recipient := by
      rcases hInv.back_ref hr hpr with ⟨hlr, _⟩ | ⟨hrr', _⟩
      · rw [hrl] at hlr
        exact absurd (Option.some.inj hlr) hc
      · rw [hrr] at hrr'
        exact Option.some.inj hrr'
    exact ⟨by rw [hr', hrrec], hl'⟩

/-- Witness for the amended claim C5 at `((A,B),C);`, donor `A` (index 2),
recipient `C` (index 4): the root's left slot (which held the sibling,
index 1) ends holding the donor, the right slot still holds the recipient,
and the depth field is stamped. -/
theorem claim_C5_amended_witness :
    rightOf exA24 0 = some 4 ∧ leftOf exA24 0 = some 2 ∧
    depthOf exA24 0 = some 9 := by
  obtain ⟨t', heq, hdep, _, hneg⟩ :=
    claim_C5_amended exA 2 4 1 0 1 4 (9 : Int) (by decide) (by decide)
      (by decide) (by decide) (by decide) (by decide) (by decide)
      (by decide) (by decide)
  have ht' : t' = exA24 := by
    have hev : spr exA 2 4 (9 : Int) = some exA24 := by decide
    rw [heq] at hev
    exact Option.some.inj hev
  obtain ⟨h1, h2⟩ := hneg (by decide)
  exact ⟨ht' ▸ h1, ht' ▸ h2, ht' ▸ hdep⟩

/-- Claim C6, counterexample: on `((A,B),C);` take donor = index 1 (the
internal node over `A`,`B`) and recipient `C` (index 4).  The recipient's
parent is the root and the recipient's sibling is the donor itself; after
`spr` the tree's root index is 1, but node 1's parent field is `some 0`,
not absent — refuting the claim for this call. -/
theorem claim_C6_counterexample :
    parentOf exA 1 = some 0 ∧ parentOf exA 4 = some 0 ∧
    parentOf exA 0 = none ∧ leftOf exA 0 = some 1 ∧
    spr exA 1 4 (9 : Int) = some exA14 ∧
    exA14.root = 1 ∧ ¬parentOf exA14 1 = none := by
  decide

/-- Claim C6 (amended): in the root case — provided the donor is not the
recipient's sibling (equivalently, the donor's parent is not the
recipient's parent) — the recipient's sibling is promoted to the new root:
its parent field is cleared and the arena's root index is set to it by the
operator itself. -/
theorem claim_C6_amended (t : FlatTree α)
    (donor recipient dp rp rl rr sib : Nat) (time : α)
    (hInv : Inv t) (hd : donor < t.len) (hr : recipient < t.len)
    (hpd : parentOf t donor = some dp) (hpr : parentOf t recipient = some rp)
    (hroot : parentOf t rp = none) (hdprp : dp ≠ rp)
    (hrl : leftOf t rp = some rl) (hrr : rightOf t rp = some rr)
    (hsibv : sib = if rl = recipient then rr else rl) :
    ∃ t', spr t donor recipient time = some t' ∧
      t'.root = sib ∧ parentOf t' sib = none := by
  obtain ⟨dn, hdn⟩ := getNode_eq_some_of_lt hd
  have hdnp : dn.parent = some dp := by
    rw [parentOf_node hdn] at hpd
    exact hpd
  obtain ⟨rn, hrn⟩ := getNode_eq_some_of_lt hr
  have hrnp : rn.parent = some rp := by
    rw [parentOf_node hrn] at hpr
    exact hpr
  have hrp_lt : rp < t.len := hInv.parent_lt hr hpr
  obtain ⟨rpn, hrpn⟩ := getNode_eq_some_of_lt hrp_lt
  have hrpnl : rpn.left_child = some rl := by
    rw [leftOf_node hrpn] at hrl
    exact hrl
  have hrpnr : rpn.right_child = some rr := by
    rw [rightOf_node hrpn] at hrr
    exact hrr
  have hrpnp : rpn.parent = none := by
    rw [parentOf_node hrpn] at hroot
    exact hroot
  have hsib : (if rl = recipient then rpn.right_child else some rl) =
      some sib := by
    by_cases hc : rl = recipient
    · rw [if_pos hc, hrpnr, hsibv, if_pos hc]
    · rw [if_neg hc, hsibv, if_neg hc]
  have hsib_lt : sib < t.len := by
    by_cases hc : rl = recipient
    · rw [hsibv, if_pos hc]
      exact hInv.right_lt hrp_lt hrr
    · rw [hsibv, if_neg hc]
      exact hInv.left_lt hrp_lt hrl
  -- the sibling is a child of rp, hence points back at rp
  have hsibpar : parentOf t sib = some rp := by
    by_cases hc : rl = recipient
    · exact hInv.child_parent_right hrp_lt (by rw [hrr, hsibv, if_pos hc])
    · exact hInv.child_parent_left hrp_lt (by rw [hrl, hsibv, if_neg hc])
  have hsib_ne_rp : rp ≠ sib := by
    intro hcontra
    rw [← hcontra] at hsibpar
    rw [hroot] at hsibpar
    cases hsibpar
  have hdon_ne_sib : donor ≠ sib := by
    intro hcontra
    rw [hcontra, hsibpar] at hpd
    exact hdprp (Option.some.inj hpd).symm
  have hdp_lt : dp < t.len := hInv.parent_lt hd hpd
  obtain ⟨hdpLs, _⟩ := childrenPresent hInv hd hpd
  rcases Option.isSome_iff_exists.mp hdpLs with ⟨dl0, hdl0⟩
  obtain ⟨t', heq, _, hroot', _, _, _, _, hsibfree, _, _⟩ :=
    sprRoot_char t donor dp recipient rp sib time hd hdp_lt hrp_lt hsib_lt
      rl rr dl0 hrl hrr hdl0
  refine ⟨t', ?_, hroot', hsibfree hdon_ne_sib hsib_ne_rp⟩
  rw [spr_eq hdn hdnp hrn hrnp hrpn hrpnl hsib, if_pos hrpnp]
  exact heq

/-- Witness for the amended claim C6 at `((A,B),C);`, donor `A` (index 2),
recipient `C` (index 4): the sibling (index 1) is promoted to the root with
its parent cleared. -/
theorem claim_C6_amended_witness :
    exA24.root = 1 ∧ parentOf exA24 1 = none := by
  obtain ⟨t', heq, hroot', hfree⟩ :=
    claim_C6_amended exA 2 4 1 0 1 4 1 (9 : Int) (by decide) (by decide)
      (by decide) (by decide) (by decide) (by decide) (by decide)
      (by decide) (by decide) (by decide)
  have ht' : t' = exA24 := by
    have hev : spr exA 2 4 (9 : Int) = some exA24 := by decide
    rw [heq] at hev
    exact Option.some.inj hev
  exact ⟨ht' ▸ hroot', ht' ▸ hfree⟩

/-- Claim C9: a completed `spr` call writes the depth field of exactly one
node — the recipient's parent, stamped with `time` — and leaves the depth
of every other node, the name of every node, and the entire record of every
node outside {donor, donor's parent, recipient's parent, recipient's
sibling, grandparent} unchanged. -/
theorem claim_C9 (t : FlatTree α) (donor recipient dp rp rl rr sib : Nat)
    (time : α) (hInv : Inv t) (hd : donor < t.len) (hr : recipient < t.len)
    (hpd : parentOf t donor = some dp) (hpr : parentOf t recipient = some rp)
    (hrl : leftOf t rp = some rl) (hrr : rightOf t rp = some rr)
    (hsibv : sib = if rl = recipient then rr else rl) :
    ∃ t', spr t donor recipient time = some t' ∧
      depthOf t' rp = some time ∧
      (∀ i, i ≠ rp → depthOf t' i = depthOf t i) ∧
      (∀ i, nameOf t' i = nameOf t i) ∧
      (∀ i, i ≠ donor → i ≠ dp → i ≠ rp → i ≠ sib →
        (∀ gp, parentOf t rp = some gp → i ≠ gp) →
        getNode t' i = getNode t i) := by
  obtain ⟨dn, hdn⟩ := getNode_eq_some_of_lt hd
  have hdnp : dn.parent = some dp := by
    rw [parentOf_node hdn] at hpd
    exact hpd
  obtain ⟨rn, hrn⟩ := getNode_eq_some_of_lt hr
  have hrnp : rn.parent = some rp := by
    rw [parentOf_node hrn] at hpr
    exact hpr
  have hrp_lt : rp < t.len := hInv.parent_lt hr hpr
  obtain ⟨rpn, hrpn⟩ := getNode_eq_some_of_lt hrp_lt
  have hrpnl : rpn.left_child = some rl := by
    rw [leftOf_node hrpn] at hrl
    exact hrl
  have hrpnr : rpn.right_child = some rr := by
    rw [rightOf_node hrpn] at hrr
    exact hrr
  have hsib : (if rl = recipient then rpn.right_child else some rl) =
      some sib := by
    by_cases hc : rl = recipient
    · rw [if_pos hc, hrpnr, hsibv, if_pos hc]
    · rw [if_neg hc, hsibv, if_neg hc]
  have hsib_lt : sib < t.len := by
    by_cases hc : rl = recipient
    · rw [hsibv, if_pos hc]
      exact hInv.right_lt hrp_lt hrr
    · rw [hsibv, if_neg hc]
      exact hInv.left_lt hrp_lt hrl
  have hdp_lt : dp < t.len := hInv.parent_lt hd hpd
  obtain ⟨hdpLs, _⟩ := childrenPresent hInv hd hpd
  rw [spr_eq hdn hdnp hrn hrnp hrpn hrpnl hsib]
  rcases hpar : rpn.parent with _ | gp
  · rw [if_pos rfl]
    have hrpar : parentOf t rp = none := by
      rw [parentOf_node hrpn]
      exact hpar
    rcases Option.isSome_iff_exists.mp hdpLs with ⟨dl0, hdl0⟩
    obtain ⟨t', heq, _, _, hnames, hdepths, hdeprp, hframe, _, _, _⟩ :=
      sprRoot_char t donor dp recipient rp sib time hd hdp_lt hrp_lt
        hsib_lt rl rr dl0 hrl hrr hdl0
    exact ⟨t', heq, hdeprp, hdepths, hnames,
      fun i hid hidp hirp hisib _ => hframe i hisib hirp hidp hid⟩
  · rw [if_neg (by simp)]
    have hgrp : parentOf t rp = some gp := by
      rw [parentOf_node hrpn]
      exact hpar
    obtain ⟨t', heq⟩ :=
      sprNonRoot_isSome t donor dp recipient rp sib (some gp) time
        hd hdp_lt hrp_lt hsib_lt
        (fun g hg => by
          cases Option.some.inj hg
          exact ⟨hInv.parent_lt hrp_lt hgrp,
            (childrenPresent hInv hrp_lt hgrp).1⟩)
        (by rw [hrl]; rfl) hdpLs
    obtain ⟨_, _, hnames, hdepths, hdeprp, hframe⟩ := sprNonRoot_frame heq
    refine ⟨t', heq, hdeprp, hdepths, hnames, ?_⟩
    intro i hid hidp hirp hisib higp
    exact hframe i hid hidp hirp hisib
      (fun g hg => higp g (by rw [hgrp, ← hg]))

/-- Witness for claim C9 at the arena of `((A,B),(C,D));`, donor `A`
(index 2), recipient `C` (index 5): the recipient's parent (index 4) gets
its depth stamped; node 3 (`B`), which plays no role in the move, is
entirely untouched; names are preserved. -/
theorem claim_C9_witness :
    depthOf ex1spr 4 = some 9 ∧ depthOf ex1spr 3 = depthOf ex1 3 ∧
    nameOf ex1spr 5 = nameOf ex1 5 ∧ getNode ex1spr 3 = getNode ex1 3 := by
  obtain ⟨t', heq, hdep, hdepths, hnames, hframe⟩ :=
    claim_C9 ex1 2 5 1 4 5 6 6 (9 : Int) (by decide) (by decide)
      (by decide) (by decide) (by decide) (by decide) (by decide)
      (by decide)
  have ht' : t' = ex1spr := by
    have hev : spr ex1 2 5 (9 : Int) = some ex1spr := by decide
    rw [heq] at hev
    exact Option.some.inj hev
  refine ⟨ht' ▸ hdep, ht' ▸ hdepths 3 (by decide), ht' ▸ hnames 5, ?_⟩
  have h3 := hframe 3 (by decide) (by decide) (by decide) (by decide)
    (fun gp hgp => by
      have : gp = 0 := by
        have : parentOf ex1 4 = some 0 := by decide
        rw [this] at hgp
        exact (Option.some.inj hgp).symm
      rw [this]
      decide)
  exact ht' ▸ h3

theorem iterParent_add (t : FlatTree α) (a b i : Nat) :
    iterParent t (a + b) i =
      (iterParent t a i).bind fun m => iterParent t b m := by
  induction a generalizing i with
  | zero => simp [iterParent]
  | succ a ih =>
    rw [Nat.succ_add, iterParent, iterParent]
    rcases parentOf t i with _ | p
    · rfl
    · simp only [Option.some_bind]
      exact ih p

/-- The fuelled validation walk hits `target` exactly when some number of
upward steps below the fuel bound lands on `target`. -/
theorem hitsAncestor_true_iff (t : FlatTree α) (target : Nat) :
    ∀ fuel (o : Option Nat), hitsAncestor t target fuel o = true ↔
      ∃ j, j < fuel ∧ o.bind (fun s => iterParent t j s) = some target
  | 0, o => by simp [hitsAncestor]
  | fuel + 1, none => by simp [hitsAncestor]
  | fuel + 1, some p => by
    rw [hitsAncestor]
    constructor
    · intro h
      by_cases hp : p = target
      · exact ⟨0, Nat.succ_pos _, by simp [iterParent, hp]⟩
      · rw [if_neg hp] at h
        obtain ⟨j, hj, hstep⟩ :=
          (hitsAncestor_true_iff t target fuel (parentOf t p)).mp h
        refine ⟨j + 1, Nat.succ_lt_succ hj, ?_⟩
        simp only [Option.some_bind]
        rw [iterParent]
        exact hstep
    · rintro ⟨j, hj, hstep⟩
      by_cases hp : p = target
      · rw [if_pos hp]
      · rw [if_neg hp]
        cases j with
        | zero =>
          simp only [Option.some_bind, iterParent] at hstep
          exact absurd (Option.some.inj hstep) hp
        | succ j =>
          apply (hitsAncestor_true_iff t target fuel (parentOf t p)).mpr
          refine ⟨j, Nat.lt_of_succ_lt_succ hj, ?_⟩
          simp only [Option.some_bind, iterParent] at hstep
          exact hstep

/-- Under the invariants, any number of parent steps that still lands on a
node is below the arena size (parent chains reach the parentless root in
fewer than `t.len` steps and stop there). -/
theorem iterParent_bound {t : FlatTree α} (hInv : Inv t) {i j a : Nat}
    (hi : i < t.len) (hj : iterParent t j i = some a) : j < t.len := by
  obtain ⟨k, hk, hroot⟩ := hInv.reaches_root hi
  by_contra hcon
  push_neg at hcon
  have hnone : iterParent t j i = none := by
    have hsplit : j = k + (j - k) := by omega
    rw [hsplit, iterParent_add, hroot]
    simp only [Option.some_bind]
    have h1 : j - k = (j - k - 1) + 1 := by omega
    rw [h1, iterParent, hInv.root_parent]
    rfl
  rw [hnone] at hj
  cases hj

/-- Correctness of the validation walk with fuel `t.len`: it reports a hit
exactly when `target` is a proper ancestor of `d`. -/
theorem hitsAncestor_len_iff {t : FlatTree α} (hInv : Inv t) {d : Nat}
    (hd : d < t.len) (target : Nat) :
    hitsAncestor t target t.len (parentOf t d) = true ↔
      properAncestor t target d := by
  rw [hitsAncestor_true_iff]
  constructor
  · rintro ⟨j, _, hstep⟩
    refine ⟨j + 1, Nat.le_add_left 1 j, ?_⟩
    rw [iterParent]
    exact hstep
  · rintro ⟨k, hk1, hstep⟩
    have hklt : k < t.len := iterParent_bound hInv hd hstep
    refine ⟨k - 1, by omega, ?_⟩
    have hk : k = (k - 1) + 1 := by omega
    rw [hk, iterParent] at hstep
    exact hstep

/-- Reduction of `runMain` once both lookups succeed: the run rejects the
move (exit code 1, before any mutation) exactly when the validation walk
hits, i.e. — under the invariants — exactly when the recipient's index is a
proper ancestor of the donor's. -/
theorem runMain_invalid_iff {t : FlatTree α} (hInv : Inv t)
    {donorName recipientName : String} {dIdx rIdx : Nat} {time : α}
    (hd : dIdx < t.len)
    (hLocD : locate t "Donor" donorName = Except.ok dIdx)
    (hLocR : locate t "Recipient" recipientName = Except.ok rIdx) :
    runMain t donorName recipientName time = RunResult.invalidMove ↔
      properAncestor t rIdx dIdx := by
  rw [runMain, hLocD, hLocR]
  show (if hitsAncestor t rIdx t.len (parentOf t dIdx) = true then
      RunResult.invalidMove
    else
      match spr t dIdx rIdx time with
      | none => RunResult.panic "spr aborted"
      | some t' =>
        match position (fun nd => nd.parent.isNone) t'.nodes with
        | none => RunResult.panic "No root found in the tree"
        | some rootIdx => RunResult.ok { t' with root := rootIdx }) =
      RunResult.invalidMove ↔ properAncestor t rIdx dIdx
  by_cases hw : hitsAncestor t rIdx t.len (parentOf t dIdx) = true
  · rw [if_pos hw]
    simp only [true_iff]
    exact (hitsAncestor_len_iff hInv hd rIdx).mp hw
  · rw [if_neg hw]
    constructor
    · intro hcontra
      rcases hspr : spr t dIdx rIdx time with _ | t'
      · rw [hspr] at hcontra
        cases hcontra
      · rw [hspr] at hcontra
        replace hcontra :
            (match position (fun nd => nd.parent.isNone) t'.nodes with
              | none => RunResult.panic "No root found in the tree"
              | some rootIdx =>
                RunResult.ok { t' with root := rootIdx }) =
              RunResult.invalidMove := hcontra
        rcases hpos : position (fun nd => nd.parent.isNone) t'.nodes
          with _ | rootIdx
        · rw [hpos] at hcontra
          cases hcontra
        · rw [hpos] at hcontra
          cases hcontra
    · intro hanc
      exact absurd ((hitsAncestor_len_iff hInv hd rIdx).mpr hanc) hw

/-- Claim C10: under the invariants, once both name lookups return
in-bounds indices, the program takes the exit-code-1 path exactly when some
proper ancestor of the donor (reached by following parent links upward from
the donor's parent) equals the recipient index; on that path (`invalidMove`
in the model) `spr` is never invoked and no output arena is produced. -/
theorem claim_C10 (t : FlatTree α) (donorName recipientName : String)
    (dIdx rIdx : Nat) (time : α) (hInv : Inv t) (hd : dIdx < t.len)
    (hLocD : locate t "Donor" donorName = Except.ok dIdx)
    (hLocR : locate t "Recipient" recipientName = Except.ok rIdx) :
    runMain t donorName recipientName time = RunResult.invalidMove ↔
      properAncestor t rIdx dIdx :=
  runMain_invalid_iff hInv hd hLocD hLocR

/-- Witness for claim C10 at the arena of `((A,B)X,C);` with donor `A`
(index 2) and recipient `X` (index 1): `X` is `A`'s parent, so the run is
rejected with exit code 1. -/
theorem claim_C10_witness :
    runMain exC2 "A" "X" (9 : Int) = RunResult.invalidMove := by
  exact (claim_C10 exC2 "A" "X" 2 1 (9 : Int) (by decide) (by decide)
    (by decide) (by decide)).mpr ⟨1, le_refl 1, by decide⟩

/-- Claim C2, counterexample: on `((A,B)X,C);` with donor `X` (index 1) and
recipient `A` (index 2), the donor IS a proper ancestor of the recipient,
yet the program does not reject the move: the run completes (`ok`), `spr`
is applied, and the arena it hands to serialization differs from the input
arena — refuting the claim that such moves exit with status 1 before any
mutation. -/
theorem claim_C2_counterexample :
    properAncestor exC2 1 2 ∧
    nameOf exC2 1 = some "X" ∧ nameOf exC2 2 = some "A" ∧
    locate exC2 "Donor" "X" = Except.ok 1 ∧
    locate exC2 "Recipient" "A" = Except.ok 2 ∧
    runMain exC2 "X" "A" (9 : Int) = RunResult.ok exC2run ∧
    ¬runMain exC2 "X" "A" (9 : Int) = RunResult.invalidMove ∧
    ¬exC2run = exC2 := by
  refine ⟨⟨1, le_refl 1, by decide⟩, by decide, by decide, by decide,
    by decide, by decide, by decide, by decide⟩

/-- Claim C2 (amended): the rejection test is the reverse of the claim's:
the program exits with status 1, before any mutation and without invoking
`spr`, exactly in the runs where the RECIPIENT is a proper ancestor of the
DONOR (the donor is a descendant of the recipient); here the rejecting
direction is stated. -/
theorem claim_C2_amended (t : FlatTree α) (donorName recipientName : String)
    (dIdx rIdx : Nat) (time : α) (hInv : Inv t) (hd : dIdx < t.len)
    (hLocD : locate t "Donor" donorName = Except.ok dIdx)
    (hLocR : locate t "Recipient" recipientName = Except.ok rIdx)
    (hanc : properAncestor t rIdx dIdx) :
    runMain t donorName recipientName time = RunResult.invalidMove :=
  (runMain_invalid_iff hInv hd hLocD hLocR).mpr hanc

/-- Witness for the amended claim C2 at `((A,B)X,C);` with donor `A` and
recipient `X`: the recipient is the donor's parent, so the move is
rejected. -/
theorem claim_C2_amended_witness :
    runMain exC2 "A" "X" (5 : Int) = RunResult.invalidMove := by
  exact claim_C2_amended exC2 "A" "X" 2 1 (5 : Int) (by decide) (by decide)
    (by decide) (by decide) ⟨1, le_refl 1, by decide⟩

theorem position_eq_none_iff {β : Type} {p : β → Bool} {l : List β} :
    position p l = none ↔ ∀ x ∈ l, p x = false := by
  induction l with
  | nil => simp [position]
  | cons x xs ih =>
    rw [position]
    by_cases hx : p x
    · simp [hx]
    · simp only [Bool.not_eq_true] at hx
      simp [hx, ih]

theorem position_eq_some {β : Type} {p : β → Bool} {l : List β} :
    ∀ {k : Nat}, position p l = some k →
      ∃ x, l[k]? = some x ∧ p x = true ∧
        ∀ j y, j < k → l[j]? = some y → p y = false := by
  induction l with
  | nil => intro k h; cases h
  | cons x xs ih =>
    intro k h
    rw [position] at h
    by_cases hx : p x
    · rw [if_pos hx] at h
      cases Option.some.inj h
      exact ⟨x, by simp, hx, fun j y hj _ => absurd hj (Nat.not_lt_zero j)⟩
    · rw [if_neg hx] at h
      rcases Option.map_eq_some'.mp h with ⟨k', hk', rfl⟩
      obtain ⟨y, hy, hpy, hprev⟩ := ih hk'
      refine ⟨y, by simpa using hy, hpy, ?_⟩
      intro j z hj hz
      cases j with
      | zero =>
        simp only [List.getElem?_cons_zero] at hz
        cases Option.some.inj hz
        exact Bool.eq_false_iff.mpr hx
      | succ j =>
        simp only [List.getElem?_cons_succ] at hz
        exact hprev j z (Nat.lt_of_succ_lt_succ hj) hz

/-- Claim C8: donor and recipient are located by scanning the pre-order
node sequence and taking the first node whose name equals the given name;
when no node carries the name, the lookup aborts with the source's
diagnostic, which names the missing identifier. -/
theorem claim_C8 (t : FlatTree α) (name : String) :
    ((∀ nd ∈ preorderNodes t, nd.name ≠ name) →
      locate t "Donor" name =
        Except.error ("Donor '" ++ name ++ "' not found in tree")) ∧
    (∀ k, lookupName t name = some k →
      ∃ nd, (preorderNodes t)[k]? = some nd ∧ nd.name = name ∧
        ∀ j nd', j < k → (preorderNodes t)[j]? = some nd' →
          nd'.name ≠ name) := by
  constructor
  · intro habsent
    have hnone : lookupName t name = none := by
      rw [lookupName, position_eq_none_iff]
      intro nd hnd
      simpa using habsent nd hnd
    rw [locate, hnone]
    show Except.error ("Donor" ++ " '" ++ name ++ "' not found in tree") =
      Except.error ("Donor '" ++ name ++ "' not found in tree")
    have hstr : ("Donor" ++ " '" : String) = "Donor '" := by decide
    rw [hstr]
  · intro k hk
    obtain ⟨nd, hnd, hpnd, hprev⟩ := position_eq_some hk
    refine ⟨nd, hnd, by simpa using hpnd, ?_⟩
    intro j nd' hj hnd'
    have := hprev j nd' hj hnd'
    simpa using this

/-- Witness for claim C8: on the arena of `((A,B),C);` no node is named
`Z`, and the lookup fails with the diagnostic naming `Z`. -/
theorem claim_C8_witness :
    locate exA "Donor" "Z" =
      Except.error ("Donor '" ++ "Z" ++ "' not found in tree") :=
  (claim_C8 exA "Z").1 (by decide)

end SprVerify
